import Mathlib

/-!
# Linux loader for the original Apple TV: memory map translation and boot parameter block

A shallow embedding of `src/memory.c` (`add_memory_region`, `fill_e820map`) and of
`src/loader.c` (`AcpiGetRsdp`, `LoadLinux`, `WrapperInit`), with the layout constants of
`src/include/linux_params.h`.

Machine integers are natural numbers; every place where the C code computes in a fixed
width carries an explicit `% 2 ^ w`.  Memory is a function from addresses (or offsets
inside a buffer) to values.
-/

namespace LinuxLoader

/-! ## Constants of `linux_params.h` -/

def E820_MAX_ENTRIES_ZEROPAGE : Nat := 128

def E820_RAM : Nat := 1
def E820_RESERVED : Nat := 2
def E820_ACPI : Nat := 3
def E820_NVS : Nat := 4

/-! ## Firmware memory types

`firmware.h` is not among the sources; `memory.c` only names the tags. -/

/-- Modelled from the spec: the memory type tags of `firmware.h` (absent from the sources),
with the numbering of the UEFI specification. -/
def EFI_RESERVED_TYPE : Nat := 0
/-- Modelled from the spec: loader code tag of the absent `firmware.h`. -/
def EFI_LOADER_CODE : Nat := 1
/-- Modelled from the spec: loader data tag of the absent `firmware.h`. -/
def EFI_LOADER_DATA : Nat := 2
/-- Modelled from the spec: boot-services code tag of the absent `firmware.h`. -/
def EFI_BOOT_SERVICES_CODE : Nat := 3
/-- Modelled from the spec: boot-services data tag of the absent `firmware.h`. -/
def EFI_BOOT_SERVICES_DATA : Nat := 4
/-- Modelled from the spec: runtime-services code tag of the absent `firmware.h`. -/
def EFI_RUNTIME_SERVICES_CODE : Nat := 5
/-- Modelled from the spec: runtime-services data tag of the absent `firmware.h`. -/
def EFI_RUNTIME_SERVICES_DATA : Nat := 6
/-- Modelled from the spec: conventional memory tag of the absent `firmware.h`. -/
def EFI_CONVENTIONAL_MEMORY : Nat := 7
/-- Modelled from the spec: unusable memory tag of the absent `firmware.h`. -/
def EFI_UNUSABLE_MEMORY : Nat := 8
/-- Modelled from the spec: ACPI reclaim tag of the absent `firmware.h`. -/
def EFI_ACPI_RECLAIM_MEMORY : Nat := 9
/-- Modelled from the spec: ACPI NVS tag of the absent `firmware.h`. -/
def EFI_ACPI_MEMORY_NVS : Nat := 10
/-- Modelled from the spec: memory-mapped I/O tag of the absent `firmware.h`. -/
def EFI_MEMORY_MAPPED_IO : Nat := 11
/-- Modelled from the spec: memory-mapped I/O port space tag of the absent `firmware.h`. -/
def EFI_MEMORY_MAPPED_IO_PORT_SPACE : Nat := 12
/-- Modelled from the spec: PAL code tag of the absent `firmware.h`. -/
def EFI_PAL_CODE : Nat := 13

/-- Modelled from the spec: the page shift of the absent `firmware.h` (4096-byte pages). -/
def EFI_PAGE_SHIFT : Nat := 12

/-- Modelled from the spec: the fields of `efi_memory_desc_t` (declared in the absent
`firmware.h`) that `fill_e820map` reads: `type` is 32 bits wide, `phys_addr` and
`num_pages` are 64 bits wide. -/
structure efi_memory_desc_t where
  type : Nat
  phys_addr : Nat
  num_pages : Nat
  deriving DecidableEq

/-- The record `struct boot_e820_entry` (`addr` and `size` 64 bits, `type` 32 bits). -/
structure boot_e820_entry where
  addr : Nat
  size : Nat
  type : Nat
  deriving DecidableEq

/-! ## Halting

`fatal(...)` prints and then calls `fail()`, an assembly routine that is not among the
sources. -/

/-- Modelled from the spec: `fail()` (assembly, absent from the sources) halts the boot
attempt in place, so nothing after a `fatal(...)` runs.  A run either completes with a
state or is halted in `fail()` with the state reached at that point. -/
inductive Run (σ : Type) where
  | done (s : σ)
  | halted (s : σ)

/-- The state at the end of a run, completed or halted. -/
def Run.state {σ : Type} : Run σ → σ
  | .done s => s
  | .halted s => s

/-- Whether the run was halted in `fail()`. -/
def Run.isHalted {σ : Type} : Run σ → Bool
  | .done _ => false
  | .halted _ => true

/-! ## `memory.c` -/

/-- The table `e820_map` (indexed by slot) together with the counter `e820_nr_map`. -/
structure E820State where
  e820_map : Nat → boot_e820_entry
  e820_nr_map : Nat

/-- The first `e820_nr_map` slots of the table, in order. -/
def E820State.entries (s : E820State) : List boot_e820_entry :=
  (List.range s.e820_nr_map).map s.e820_map

/-- The function `add_memory_region` of `memory.c`. -/
def add_memory_region (s : E820State) (start size type : Nat) : Run E820State :=
  let x := s.e820_nr_map
  if x = E820_MAX_ENTRIES_ZEROPAGE then
    .halted s
  else if 0 < x ∧ ((s.e820_map (x - 1)).addr + (s.e820_map (x - 1)).size) % 2 ^ 64 = start
      ∧ (s.e820_map (x - 1)).type = type then
    .done { s with
      e820_map := Function.update s.e820_map (x - 1)
        { s.e820_map (x - 1) with size := ((s.e820_map (x - 1)).size + size) % 2 ^ 64 } }
  else
    .done { e820_map := Function.update s.e820_map x ⟨start, size, type⟩
            e820_nr_map := (x + 1) % 2 ^ 32 }

/-- How one pass through the `switch` of `fill_e820map` ends: halted in `fail()`, at a
`break` (control reaches the pointer advance at the end of the loop body), or at the
`continue` of the low-memory fix-up (control goes straight to `i++`). -/
inductive Flow where
  | fatal (s : E820State)
  | brk (s : E820State)
  | cont (s : E820State)

/-- A call of `add_memory_region` followed by `break`. -/
def add_then_break (s : E820State) (start size type : Nat) : Flow :=
  match add_memory_region s start size type with
  | .halted s1 => .fatal s1
  | .done s1 => .brk s1

/-- The `switch (md->type)` of `fill_e820map`, for one descriptor. -/
def switch_body (md : efi_memory_desc_t) (s : E820State) : Flow :=
  if md.type = EFI_ACPI_RECLAIM_MEMORY then
    add_then_break s md.phys_addr ((md.num_pages <<< EFI_PAGE_SHIFT) % 2 ^ 64) E820_ACPI
  else if md.type = EFI_RUNTIME_SERVICES_CODE ∨ md.type = EFI_RUNTIME_SERVICES_DATA
      ∨ md.type = EFI_RESERVED_TYPE ∨ md.type = EFI_MEMORY_MAPPED_IO
      ∨ md.type = EFI_MEMORY_MAPPED_IO_PORT_SPACE ∨ md.type = EFI_UNUSABLE_MEMORY
      ∨ md.type = EFI_PAL_CODE then
    add_then_break s md.phys_addr ((md.num_pages <<< EFI_PAGE_SHIFT) % 2 ^ 64) E820_RESERVED
  else if md.type = EFI_LOADER_CODE ∨ md.type = EFI_LOADER_DATA
      ∨ md.type = EFI_BOOT_SERVICES_CODE ∨ md.type = EFI_BOOT_SERVICES_DATA
      ∨ md.type = EFI_CONVENTIONAL_MEMORY then
    let start := md.phys_addr
    let size := (md.num_pages <<< EFI_PAGE_SHIFT) % 2 ^ 64
    let end_ := (start + size) % 2 ^ 64
    if start < 0x100000 ∧ end_ > 0xA0000 then
      if start < 0xA0000 then
        match add_memory_region s start (0xA0000 - start) E820_RAM with
        | .halted s1 => .fatal s1
        | .done s1 =>
          if end_ ≤ 0x100000 then .cont s1
          else add_then_break s1 0x100000 (end_ - 0x100000) E820_RAM
      else
        if end_ ≤ 0x100000 then .cont s
        else add_then_break s 0x100000 (end_ - 0x100000) E820_RAM
    else
      add_then_break s start size E820_RAM
  else if md.type = EFI_ACPI_MEMORY_NVS then
    add_then_break s md.phys_addr ((md.num_pages <<< EFI_PAGE_SHIFT) % 2 ^ 64) E820_NVS
  else
    add_then_break s md.phys_addr ((md.num_pages <<< EFI_PAGE_SHIFT) % 2 ^ 64) E820_RESERVED

/-- The `for` loop of `fill_e820map`: `k` is the number of iterations still to run
(`nr_map - i`), `p` the descriptor pointer, `rd` reads the descriptor stored at an
address of firmware memory.  After a `break` the body ends with
`p = NextEFIMemoryDescriptor(p, efi_memdesc_size)`; after the `continue` only `i++` runs. -/
def fill_loop (rd : Nat → efi_memory_desc_t) (efi_memdesc_size : Nat) :
    Nat → Nat → E820State → Run E820State
  | 0, _, s => .done s
  | k + 1, p, s =>
    match switch_body (rd p) s with
    | .fatal s1 => .halted s1
    | .brk s1 => fill_loop rd efi_memdesc_size k (p + efi_memdesc_size) s1
    | .cont s1 => fill_loop rd efi_memdesc_size k p s1

/-- The function `fill_e820map` of `memory.c`: `efi_memmap`, `efi_memmap_size` and
`efi_memdesc_size` are the fields of `boot_params->efi_info`, `e820_table` the table of
the parameter block as the function finds it.  On completion the counter of the
resulting state is what the function stores into `boot_params->e820_entries`. -/
def fill_e820map (rd : Nat → efi_memory_desc_t)
    (efi_memmap efi_memmap_size efi_memdesc_size : Nat)
    (e820_table : Nat → boot_e820_entry) : Run E820State :=
  let nr_map := efi_memmap_size / efi_memdesc_size
  fill_loop rd efi_memdesc_size nr_map efi_memmap ⟨e820_table, 0⟩

/-! ## The translation the specification describes

These definitions follow the words of the specification (§4.1), not the code; the
theorems below compare them with `fill_e820map`. -/

/-- One region handed to the coalescing append. -/
structure MemRegion where
  start : Nat
  size : Nat
  type : Nat
  deriving DecidableEq

/-- The usable-RAM class of firmware memory types. -/
def is_ram_class (t : Nat) : Prop :=
  t = EFI_LOADER_CODE ∨ t = EFI_LOADER_DATA ∨ t = EFI_BOOT_SERVICES_CODE
    ∨ t = EFI_BOOT_SERVICES_DATA ∨ t = EFI_CONVENTIONAL_MEMORY

instance (t : Nat) : Decidable (is_ram_class t) := by
  unfold is_ram_class
  infer_instance

/-- The legacy type given to a firmware memory type outside the usable-RAM class. -/
def e820_type_of (t : Nat) : Nat :=
  if t = EFI_ACPI_RECLAIM_MEMORY then E820_ACPI
  else if t = EFI_ACPI_MEMORY_NVS then E820_NVS
  else E820_RESERVED

/-- The regions emitted for one descriptor (§4.1, steps 2 and 3). -/
def emitted_regions (md : efi_memory_desc_t) : List MemRegion :=
  let start := md.phys_addr
  let size := (md.num_pages <<< EFI_PAGE_SHIFT) % 2 ^ 64
  let end_ := (start + size) % 2 ^ 64
  if is_ram_class md.type then
    if start < 0x100000 ∧ end_ > 0xA0000 then
      (if start < 0xA0000 then [⟨start, 0xA0000 - start, E820_RAM⟩] else [])
        ++ (if end_ ≤ 0x100000 then [] else [⟨0x100000, end_ - 0x100000, E820_RAM⟩])
    else [⟨start, size, E820_RAM⟩]
  else [⟨start, size, e820_type_of md.type⟩]

/-- A usable-RAM descriptor that overlaps the 640KiB-1MiB hole and ends at or below
1MiB: the case in which the code leaves the `switch` through `continue`. -/
def takes_continue (md : efi_memory_desc_t) : Prop :=
  is_ram_class md.type ∧ md.phys_addr < 0x100000
    ∧ (md.phys_addr + (md.num_pages <<< EFI_PAGE_SHIFT) % 2 ^ 64) % 2 ^ 64 > 0xA0000
    ∧ (md.phys_addr + (md.num_pages <<< EFI_PAGE_SHIFT) % 2 ^ 64) % 2 ^ 64 ≤ 0x100000

instance (md : efi_memory_desc_t) : Decidable (takes_continue md) := by
  unfold takes_continue
  infer_instance

/-- Feeding regions, in order, to the coalescing append; a halt ends the run. -/
def feed (s : E820State) : List MemRegion → Run E820State
  | [] => .done s
  | r :: rs =>
    match add_memory_region s r.start r.size r.type with
    | .halted s1 => .halted s1
    | .done s1 => feed s1 rs

/-- The descriptors found at byte offsets `0, stride, ..., (n-1)*stride` from `base`. -/
def descriptors (rd : Nat → efi_memory_desc_t) (base stride n : Nat) :
    List efi_memory_desc_t :=
  (List.range n).map (fun i => rd (base + i * stride))

/-- The translation of a firmware memory map as the specification describes it: each of
the `size / stride` descriptors once, in traversal order. -/
def translate_spec (rd : Nat → efi_memory_desc_t) (base size stride : Nat)
    (e820_table : Nat → boot_e820_entry) : Run E820State :=
  feed ⟨e820_table, 0⟩ ((descriptors rd base stride (size / stride)).flatMap emitted_regions)

/-- The descriptors the loop of `fill_e820map` looks at, in order: the pointer moves on
after a `break` and stays after the `continue`. -/
def visited (rd : Nat → efi_memory_desc_t) (efi_memdesc_size : Nat) :
    Nat → Nat → List efi_memory_desc_t
  | 0, _ => []
  | k + 1, p =>
    rd p :: (if takes_continue (rd p) then visited rd efi_memdesc_size k p
             else visited rd efi_memdesc_size k (p + efi_memdesc_size))

/-- A table whose slots all hold zero, as `memset` leaves it. -/
def zero_table : Nat → boot_e820_entry := fun _ => ⟨0, 0, 0⟩

/-- A firmware memory map given by a list: descriptor `i` sits at `base + i * stride`,
every other address reads as an all-zero descriptor. -/
def map_of (ds : List efi_memory_desc_t) (base stride : Nat) (p : Nat) : efi_memory_desc_t :=
  if stride = 0 then ds.getD 0 ⟨0, 0, 0⟩
  else if base ≤ p ∧ (p - base) % stride = 0 then ds.getD ((p - base) / stride) ⟨0, 0, 0⟩
  else ⟨0, 0, 0⟩

/-- The end of one pass through the `switch`, from the run of its calls. -/
def flow_of (r : Run E820State) (c : Bool) : Flow :=
  match r with
  | .halted s => .fatal s
  | .done s => if c then .cont s else .brk s

/-- No two consecutive entries of the table are mergeable: same type and the first ends
(in 64-bit arithmetic) where the second starts. -/
def NoMergeablePair (s : E820State) : Prop :=
  ∀ i, i + 1 < s.e820_nr_map →
    ¬ ((s.e820_map i).type = (s.e820_map (i + 1)).type
      ∧ ((s.e820_map i).addr + (s.e820_map i).size) % 2 ^ 64 = (s.e820_map (i + 1)).addr)

/-- Every entry below the counter has one of the four legacy types. -/
def TypesLegal (s : E820State) : Prop :=
  ∀ i, i < s.e820_nr_map →
    (s.e820_map i).type = E820_RAM ∨ (s.e820_map i).type = E820_RESERVED
      ∨ (s.e820_map i).type = E820_ACPI ∨ (s.e820_map i).type = E820_NVS

/-- The input size of a descriptor: `num_pages * 4096` bytes. -/
def input_size (md : efi_memory_desc_t) : Nat := md.num_pages * 4096

/-- The number of bytes of a usable-RAM-class descriptor inside `[0xA0000, 0x100000)`;
zero for the other classes. -/
def hole_bytes (md : efi_memory_desc_t) : Nat :=
  if is_ram_class md.type then
    min (md.phys_addr + md.num_pages * 4096) 0x100000 - max md.phys_addr 0xA0000
  else 0

/-- The total the specification expects in the output table: the input sizes minus the
bytes of usable-RAM-class descriptors inside the hole. -/
def expected_total (ds : List efi_memory_desc_t) : Nat :=
  (ds.map input_size).sum - (ds.map hole_bytes).sum

/-- The sum of the sizes of the entries of a table. -/
def total_size (s : E820State) : Nat := (s.entries.map (fun e => e.size)).sum

/-- Two entries of non-zero size share a byte address. -/
def Overlap (e1 e2 : boot_e820_entry) : Prop :=
  0 < e1.size ∧ 0 < e2.size ∧ e1.addr < e2.addr + e2.size ∧ e2.addr < e1.addr + e1.size

instance (e1 e2 : boot_e820_entry) : Decidable (Overlap e1 e2) := by
  unfold Overlap
  infer_instance

/-- Two input regions `[phys_addr, phys_addr + num_pages * 4096)` share a byte address. -/
def InputOverlap (d1 d2 : efi_memory_desc_t) : Prop :=
  0 < d1.num_pages ∧ 0 < d2.num_pages
    ∧ d1.phys_addr < d2.phys_addr + d2.num_pages * 4096
    ∧ d2.phys_addr < d1.phys_addr + d1.num_pages * 4096

instance (d1 d2 : efi_memory_desc_t) : Decidable (InputOverlap d1 d2) := by
  unfold InputOverlap
  infer_instance

/-- A map of two descriptors: conventional memory `[0x90000, 0xB0000)`, then a reserved
page at 1MiB. -/
def map_low_then_reserved : List efi_memory_desc_t :=
  [⟨EFI_CONVENTIONAL_MEMORY, 0x90000, 0x20⟩, ⟨EFI_RESERVED_TYPE, 0x100000, 1⟩]

/-- A map of two descriptors: boot-services data `[0x9F000, 0xA1000)`, then conventional
memory `[0x100000, 0x200000)`. -/
def map_low_then_ram : List efi_memory_desc_t :=
  [⟨EFI_BOOT_SERVICES_DATA, 0x9F000, 2⟩, ⟨EFI_CONVENTIONAL_MEMORY, 0x100000, 0x100⟩]

/-- A map of two descriptors: loader code `[0x98000, 0xA8000)`, then conventional memory
`[0x200000, 0x210000)`. -/
def map_low_then_high : List efi_memory_desc_t :=
  [⟨EFI_LOADER_CODE, 0x98000, 0x10⟩, ⟨EFI_CONVENTIONAL_MEMORY, 0x200000, 0x10⟩]

/-- A map of 130 descriptors: conventional memory `[0xB0000, 0xC0000)` inside the hole,
then 129 reserved pages 8KiB apart from 2MiB on, no two of them adjacent. -/
def map_hole_then_129_reserved : List efi_memory_desc_t :=
  ⟨EFI_CONVENTIONAL_MEMORY, 0xB0000, 0x10⟩ ::
    (List.range 129).map (fun i => ⟨EFI_RESERVED_TYPE, 0x200000 + i * 0x2000, 1⟩)
/-! ## Bytes in memory

Memory and buffers are functions from an offset to a byte; multi-byte fields are
little-endian (i386). -/

/-- The byte at an offset. -/
def load8 (mem : Nat → Nat) (off : Nat) : Nat := mem off % 256

/-- The 16-bit field at an offset. -/
def load16 (mem : Nat → Nat) (off : Nat) : Nat := load8 mem off + 256 * load8 mem (off + 1)

/-- The 32-bit field at an offset. -/
def load32 (mem : Nat → Nat) (off : Nat) : Nat :=
  load16 mem off + 65536 * load16 mem (off + 2)

/-- The 64-bit field at an offset. -/
def load64 (mem : Nat → Nat) (off : Nat) : Nat :=
  load32 mem off + 4294967296 * load32 mem (off + 4)

/-- A store to an 8-bit field. -/
def store8 (mem : Nat → Nat) (off v : Nat) : Nat → Nat := Function.update mem off (v % 256)

/-- A store to a 16-bit field. -/
def store16 (mem : Nat → Nat) (off v : Nat) : Nat → Nat :=
  store8 (store8 mem off v) (off + 1) (v / 256)

/-- A store to a 32-bit field. -/
def store32 (mem : Nat → Nat) (off v : Nat) : Nat → Nat :=
  store16 (store16 mem off v) (off + 2) (v / 65536)

/-- A store to a 64-bit field. -/
def store64 (mem : Nat → Nat) (off v : Nat) : Nat → Nat :=
  store32 (store32 mem off v) (off + 4) (v / 4294967296)

/-- The call `memset(mem + off, c, len)`. -/
def memset (mem : Nat → Nat) (off c len : Nat) : Nat → Nat :=
  fun j => if off ≤ j ∧ j < off + len then c % 256 else mem j

/-- The call `memcpy(dst + doff, src + soff, len)` between two separate buffers. -/
def memcpy (dst : Nat → Nat) (doff : Nat) (src : Nat → Nat) (soff len : Nat) : Nat → Nat :=
  fun j => if doff ≤ j ∧ j < doff + len then load8 src (soff + (j - doff)) else dst j

/-! ## `loader.c` -/

/-- The messages of the `fatal(...)` calls of `loader.c` and `memory.c`. -/
inductive Fatal where
  /-- The message "Linux kernel not found!" of `WrapperInit`. -/
  | kernel_not_found
  /-- The message "This is not a Linux kernel!" of `WrapperInit`. -/
  | not_a_linux_kernel
  /-- The message "Linux kernels that load at 0x10000 are unsupported!" of `LoadLinux`. -/
  | loads_at_0x10000
  /-- The message "No ACPI table found!" of `AcpiGetRsdp`. -/
  | no_acpi_table
  /-- The message "Too many entries in the memory map!" of `add_memory_region`. -/
  | too_many_entries
  deriving DecidableEq

/-- The steps of `LoadLinux` that write memory or processor state, in source order. -/
inductive Step where
  /-- The first `memcpy`: the kernel payload goes to `relocated_kernel_start`. -/
  | relocate
  /-- The `memset` of the parameter block. -/
  | zero_params
  /-- The `memcpy` of the setup header into the parameter block. -/
  | copy_setup_header
  /-- The stores into the header, `screen_info`, `acpi_rsdp_addr` and `efi_info`. -/
  | populate
  /-- The call of `fill_e820map`. -/
  | fill_e820map
  /-- The `memset` and `memcpy` at `gdt_addr.base`. -/
  | prime_gdt
  /-- The instructions `lidt` and `lgdt`. -/
  | load_descriptor_tables
  /-- The register loads and `jmp *%ecx`. -/
  | jump
  deriving DecidableEq

/-- The memory the loader writes, each region addressed from its own base, and the list
of the steps executed so far. -/
structure Machine where
  /-- The byte at physical address `0x00100000 + j` (`relocated_kernel_start`). -/
  load_region : Nat → Nat
  /-- The byte at offset `j` of the parameter block (`boot_sector` of `WrapperInit`). -/
  boot_params : Nat → Nat
  /-- The byte at physical address `gdt_addr.base + j`. -/
  gdt_region : Nat → Nat
  /-- The steps executed so far. -/
  trace : List Step

/-- How a boot attempt ends: halted in `fail()` after a `fatal(...)`, or control handed to
the kernel by `jmp *%ecx` with the register values given. -/
inductive Outcome where
  | fatal (e : Fatal) (m : Machine)
  | handoff (esi ecx ebx : Nat) (m : Machine)

/-- The memory at the end of a boot attempt. -/
def Outcome.machine : Outcome → Machine
  | .fatal _ m => m
  | .handoff _ _ _ m => m

/-- Whether the boot attempt was halted in `fail()`. -/
def Outcome.isFatal : Outcome → Bool
  | .fatal _ _ => true
  | .handoff _ _ _ _ => false

/-- Modelled from the spec: the video fields of the boot-argument block (`mach.h` is absent
from the sources) that `LoadLinux` reads, each 32 bits wide. -/
structure MACH_VIDEO where
  BaseAddress : Nat
  Pitch : Nat
  Height : Nat
  Depth : Nat

/-- Modelled from the spec: the fields of the boot-argument block (`mach.h` is absent from
the sources) that `LoadLinux` reads; `CmdLine` is the address of the command-line string,
the other fields are 32 bits wide. -/
structure MACH_BOOTARGS where
  CmdLine : Nat
  Video : MACH_VIDEO
  EfiSystemTable : Nat
  EfiMemoryMap : Nat
  EfiMemoryMapSize : Nat
  EfiMemoryDescriptorSize : Nat
  EfiMemoryDescriptorVersion : Nat

/-- Modelled from the spec: one entry of the firmware configuration-table list
(`efi_config_table_t` of the absent `firmware.h`): a GUID, taken as a number, and a 32-bit
table address. -/
structure efi_config_table_t where
  guid : Nat
  table : Nat

/-- Modelled from the spec: the ACPI 2.0 table GUID of the absent `firmware.h`
(8868e871-e4f1-11d3-bc22-0080c73c8881). -/
def ACPI_20_TABLE_GUID : Nat := 0x8868e871e4f111d3bc220080c73c8881

/-- Modelled from the spec: the ACPI 1.0 table GUID of the absent `firmware.h`
(eb9d2d30-2d88-11d3-9a16-0090273fc14d). -/
def ACPI_TABLE_GUID : Nat := 0xeb9d2d302d8811d39a160090273fc14d

/-- The scan loop of `AcpiGetRsdp`: `k` iterations remain, `i` is the index, the result is
the pair `(acpi_table, acpi_20_table)`. -/
def AcpiGetRsdp_scan (config_tables : Nat → efi_config_table_t) :
    Nat → Nat → Nat → Nat → Nat × Nat
  | 0, _, acpi_table, acpi_20_table => (acpi_table, acpi_20_table)
  | k + 1, i, acpi_table, acpi_20_table =>
    let acpi_20_table1 :=
      if (config_tables i).guid = ACPI_20_TABLE_GUID then (config_tables i).table % 2 ^ 32
      else acpi_20_table
    let acpi_table1 :=
      if (config_tables i).guid = ACPI_TABLE_GUID then (config_tables i).table % 2 ^ 32
      else acpi_table
    AcpiGetRsdp_scan config_tables k (i + 1) acpi_table1 acpi_20_table1

/-- The function `AcpiGetRsdp` of `loader.c`: `nr_tables` and `config_tables` are read
from the firmware system table; `none` stands for the `fatal("No ACPI table found!")`. -/
def AcpiGetRsdp (nr_tables : Nat) (config_tables : Nat → efi_config_table_t) : Option Nat :=
  let r := AcpiGetRsdp_scan config_tables nr_tables 0 0 0
  if r.2 ≠ 0 then some r.2
  else if r.1 ≠ 0 then some r.1
  else none

/-- The address `relocated_kernel_start`. -/
def relocated_kernel_start : Nat := 0x00100000

/-- Modelled from the spec: `gdt_addr = { 0x800, 0x94000 }` with the type `dt_addr_t` of the
absent `types.h`, whose first member is the 16-bit `limit` and second the 32-bit `base`
(the operand layout of `lgdt`). -/
def gdt_addr_limit : Nat := 0x800

/-- Modelled from the spec: the member `base` of `gdt_addr` (see `gdt_addr_limit`). -/
def gdt_addr_base : Nat := 0x94000

/-- The array `init_gdt` of `loader.c`, 56 16-bit words. -/
def init_gdt : List Nat :=
  [0, 0, 0, 0,
   0, 0, 0, 0,
   0xFFFF, 0x0000, 0x9A00, 0x00CF,
   0xFFFF, 0x0000, 0x9200, 0x00CF,
   0, 0, 0, 0,
   0, 0, 0, 0,
   0, 0, 0, 0,
   0, 0, 0, 0,
   0, 0, 0, 0,
   0, 0, 0, 0,
   0, 0, 0, 0,
   0, 0, 0, 0,
   0xFFFF, 0x0000, 0x9A00, 0x00CF,
   0xFFFF, 0x0000, 0x9200, 0x00CF]

/-- The value `init_gdt_size = sizeof(init_gdt)`. -/
def init_gdt_size : Nat := 2 * init_gdt.length

/-- The array `init_gdt` as bytes. -/
def init_gdt_bytes (j : Nat) : Nat := (init_gdt.getD (j / 2) 0 / 256 ^ (j % 2)) % 256

/-- The size of `struct boot_params`. -/
def sizeof_boot_params : Nat := 4096

/-- Offsets of the members of `struct boot_params` and of its packed sub-structures
`screen_info`, `efi_info` and `setup_header` that `loader.c` and `memory.c` touch. -/
def off_screen_info_flags : Nat := 0x08
def off_orig_video_isVGA : Nat := 0x0f
def off_lfb_width : Nat := 0x12
def off_lfb_height : Nat := 0x14
def off_lfb_depth : Nat := 0x16
def off_lfb_base : Nat := 0x18
def off_lfb_size : Nat := 0x1c
def off_lfb_linelength : Nat := 0x24
def off_red_size : Nat := 0x26
def off_red_pos : Nat := 0x27
def off_green_size : Nat := 0x28
def off_green_pos : Nat := 0x29
def off_blue_size : Nat := 0x2a
def off_blue_pos : Nat := 0x2b
def off_capabilities : Nat := 0x36
def off_acpi_rsdp_addr : Nat := 0x70
def off_efi_loader_signature : Nat := 0x1c0
def off_efi_systab : Nat := 0x1c4
def off_efi_memdesc_size : Nat := 0x1c8
def off_efi_memdesc_version : Nat := 0x1cc
def off_efi_memmap : Nat := 0x1d0
def off_efi_memmap_size : Nat := 0x1d4
def off_e820_entries : Nat := 0x1e8
def off_hdr : Nat := 0x1f1
def off_vid_mode : Nat := 0x1fa
def off_kernel_version : Nat := 0x20e
def off_type_of_loader : Nat := 0x210
def off_loadflags : Nat := 0x211
def off_ramdisk_image : Nat := 0x218
def off_ramdisk_size : Nat := 0x21c
def off_cmd_line_ptr : Nat := 0x228
def off_e820_table : Nat := 0x2d0

/-- The size of the packed `struct boot_e820_entry`. -/
def sizeof_boot_e820_entry : Nat := 20

/-- The table `e820_table` of a parameter block, read slot by slot. -/
def e820_table_of (bp : Nat → Nat) (i : Nat) : boot_e820_entry :=
  ⟨load64 bp (off_e820_table + sizeof_boot_e820_entry * i),
   load64 bp (off_e820_table + sizeof_boot_e820_entry * i + 8),
   load32 bp (off_e820_table + sizeof_boot_e820_entry * i + 16)⟩

/-- Byte `k` of a packed `struct boot_e820_entry`. -/
def e820_entry_byte (e : boot_e820_entry) (k : Nat) : Nat :=
  if k < 8 then (e.addr / 256 ^ k) % 256
  else if k < 16 then (e.size / 256 ^ (k - 8)) % 256
  else (e.type / 256 ^ (k - 16)) % 256

/-- The parameter block with the 128 slots of `e820_table` holding the given table.
`add_memory_region` stores to no slot from 128 on (`fill_e820map_within_table`). -/
def with_e820_table (bp : Nat → Nat) (tbl : Nat → boot_e820_entry) : Nat → Nat :=
  fun j =>
    if off_e820_table ≤ j
        ∧ j < off_e820_table + sizeof_boot_e820_entry * E820_MAX_ENTRIES_ZEROPAGE then
      e820_entry_byte (tbl ((j - off_e820_table) / sizeof_boot_e820_entry))
        ((j - off_e820_table) % sizeof_boot_e820_entry)
    else bp j

/-- The value `real_kernel_len` of `LoadLinux`, computed in 32 bits. -/
def real_kernel_len (kernel_ptr : Nat → Nat) (kernel_len : Nat) : Nat :=
  (kernel_len + 2 ^ 32 - (load8 kernel_ptr 0x1F1 + 1) * 512) % 2 ^ 32

/-- The parameter block after the `memset` and the `memcpy` of the setup header. -/
def copy_setup_header (kernel_ptr : Nat → Nat) (bp : Nat → Nat) : Nat → Nat :=
  let setup_header_end := load8 kernel_ptr 0x201 + 0x202
  memcpy (memset bp 0 0 sizeof_boot_params) off_hdr kernel_ptr 0x1f1 (setup_header_end - 0x1f1)

/-- The stores `cmd_line_ptr`, `vid_mode` and `type_of_loader` of `LoadLinux`. -/
def configure_setup_header (BootArgs : MACH_BOOTARGS) (bp : Nat → Nat) : Nat → Nat :=
  store8 (store16 (store32 bp off_cmd_line_ptr BootArgs.CmdLine) off_vid_mode 0xffff)
    off_type_of_loader 0xff

/-- The statement `setup_header->loadflags &= ~(1 << 5)`. -/
def clear_early_messages (bp : Nat → Nat) : Nat → Nat :=
  store8 bp off_loadflags (load8 bp off_loadflags &&& 0xDF)

/-- The ramdisk stores of `LoadLinux`, under `if (initrd_len != 0)`. -/
def setup_ramdisk (initrd_ptr initrd_len : Nat) (bp : Nat → Nat) : Nat → Nat :=
  if initrd_len ≠ 0 then
    store32 (store32 bp off_ramdisk_image initrd_ptr) off_ramdisk_size initrd_len
  else bp

/-- The stores into `screen_info`, in source order. -/
def setup_video (BootArgs : MACH_BOOTARGS) (bp : Nat → Nat) : Nat → Nat :=
  let b1 := store32 bp off_capabilities 3
  let b2 := store8 b1 off_screen_info_flags 1
  let b3 := store32 b2 off_lfb_base BootArgs.Video.BaseAddress
  let b4 := store32 b3 off_lfb_size ((BootArgs.Video.Pitch * BootArgs.Video.Height) % 2 ^ 32)
  let b5 := store16 b4 off_lfb_width (BootArgs.Video.Pitch / 4)
  let b6 := store16 b5 off_lfb_height BootArgs.Video.Height
  let b7 := store16 b6 off_lfb_depth BootArgs.Video.Depth
  let b8 := store16 b7 off_lfb_linelength BootArgs.Video.Pitch
  let b9 := store8 b8 off_red_size 8
  let b10 := store8 b9 off_red_pos 16
  let b11 := store8 b10 off_green_size 8
  let b12 := store8 b11 off_green_pos 8
  let b13 := store8 b12 off_blue_size 8
  let b14 := store8 b13 off_blue_pos 0
  store8 b14 off_orig_video_isVGA 0x70

/-- The stores into `efi_info`: the signature "EL32" and the firmware pointers. -/
def setup_efi_info (BootArgs : MACH_BOOTARGS) (bp : Nat → Nat) : Nat → Nat :=
  let b1 := store32 bp off_efi_loader_signature 0x32334C45
  let b2 := store32 b1 off_efi_systab BootArgs.EfiSystemTable
  let b3 := store32 b2 off_efi_memmap BootArgs.EfiMemoryMap
  let b4 := store32 b3 off_efi_memmap_size BootArgs.EfiMemoryMapSize
  let b5 := store32 b4 off_efi_memdesc_size BootArgs.EfiMemoryDescriptorSize
  store32 b5 off_efi_memdesc_version BootArgs.EfiMemoryDescriptorVersion

/-- The function `LoadLinux` of `loader.c`.  `nr_tables` and `config_tables` are the
firmware configuration-table list read by `AcpiGetRsdp`, `rd` reads a firmware memory
descriptor, `kernel_ptr` and `kernel_len` are the kernel image (bytes by offset),
`initrd_ptr` is the address of the ramdisk, `bp_addr` the address of the parameter block.
The console output and the copy of the version string into a local array leave the
machine as it is.  The load region, the parameter block and the descriptor-table region
are separate buffers, so the definition stands for the C code on kernel images at least as
long as their setup sectors (`(s + 1) * 512 ≤ kernel_len`, `s` = image byte 0x1F1): for a
shorter image `real_kernel_len` wraps to nearly 4GiB and the first `memcpy` runs over
physical memory, which these buffers do not describe.  The theorems of the last section
that state the outcome of `LoadLinux` carry that length condition. -/
def LoadLinux (BootArgs : MACH_BOOTARGS) (nr_tables : Nat)
    (config_tables : Nat → efi_config_table_t) (rd : Nat → efi_memory_desc_t)
    (bp_addr : Nat) (kernel_ptr : Nat → Nat) (kernel_len initrd_ptr initrd_len : Nat)
    (m : Machine) : Outcome :=
  let len := real_kernel_len kernel_ptr kernel_len
  let load1 := memcpy m.load_region 0 kernel_ptr ((load8 kernel_ptr 0x1F1 + 1) * 512) len
  let bp1 := copy_setup_header kernel_ptr m.boot_params
  let bp2 := configure_setup_header BootArgs bp1
  if load8 bp2 off_loadflags &&& 1 = 0 then
    .fatal .loads_at_0x10000
      { m with load_region := load1, boot_params := bp2,
               trace := m.trace ++ [.relocate, .zero_params, .copy_setup_header, .populate] }
  else
    let bp3 := setup_video BootArgs (setup_ramdisk initrd_ptr initrd_len
      (clear_early_messages bp2))
    match AcpiGetRsdp nr_tables config_tables with
    | none =>
      .fatal .no_acpi_table
        { m with load_region := load1, boot_params := bp3,
                 trace := m.trace ++ [.relocate, .zero_params, .copy_setup_header, .populate] }
    | some rsdp =>
      let bp4 := setup_efi_info BootArgs (store64 bp3 off_acpi_rsdp_addr rsdp)
      match fill_e820map rd (load32 bp4 off_efi_memmap) (load32 bp4 off_efi_memmap_size)
          (load32 bp4 off_efi_memdesc_size) (e820_table_of bp4) with
      | .halted s =>
        .fatal .too_many_entries
          { m with load_region := load1, boot_params := with_e820_table bp4 s.e820_map,
                   trace := m.trace ++ [.relocate, .zero_params, .copy_setup_header,
                     .populate, .fill_e820map] }
      | .done s =>
        let bp5 := store8 (with_e820_table bp4 s.e820_map) off_e820_entries s.e820_nr_map
        let gdt1 := memcpy (memset m.gdt_region 0 0 gdt_addr_limit) 0 init_gdt_bytes 0
          init_gdt_size
        .handoff bp_addr relocated_kernel_start 0
          { load_region := load1, boot_params := bp5, gdt_region := gdt1,
            trace := m.trace ++ [.relocate, .zero_params, .copy_setup_header, .populate,
              .fill_e820map, .prime_gdt, .load_descriptor_tables, .jump] }

/-- The function `WrapperInit` of `loader.c`, from the lookup of the kernel and the
ramdisk on: `kernel_ptr`, `kernel_len`, `initrd_ptr` and `initrd_len` are what
`GetSectionDataFromHeader` returned.  The screen set-up and the console output leave the
machine as it is. -/
def WrapperInit (BootArgs : MACH_BOOTARGS) (nr_tables : Nat)
    (config_tables : Nat → efi_config_table_t) (rd : Nat → efi_memory_desc_t)
    (bp_addr : Nat) (kernel_ptr : Nat → Nat) (kernel_len initrd_ptr initrd_len : Nat)
    (m : Machine) : Outcome :=
  if kernel_len = 0 then
    .fatal .kernel_not_found m
  else if load32 kernel_ptr 0x202 ≠ 0x53726448 then
    .fatal .not_a_linux_kernel m
  else
    LoadLinux BootArgs nr_tables config_tables rd bp_addr kernel_ptr kernel_len initrd_ptr
      initrd_len m

/-- A kernel image given by the list of its non-zero bytes: pairs of offset and value. -/
def image_of (l : List (Nat × Nat)) (off : Nat) : Nat :=
  match l.lookup off with
  | some b => b
  | none => 0

/-- A machine whose memory is all zero and that has executed no step. -/
def zero_machine : Machine := ⟨fun _ => 0, fun _ => 0, fun _ => 0, []⟩

/-- A boot-argument block: command line at 0x3000, a 1280x720 frame buffer of 32 bits per
pixel, and a firmware memory map of one 40-byte descriptor at 0x5000. -/
def sample_bootargs : MACH_BOOTARGS :=
  ⟨0x3000, ⟨0x80000000, 5120, 720, 32⟩, 0x4000, 0x5000, 40, 40, 1⟩

/-- A configuration-table list whose entries all name the ACPI 2.0 table at 0xFE000. -/
def sample_config_tables (_ : Nat) : efi_config_table_t := ⟨ACPI_20_TABLE_GUID, 0xFE000⟩

/-- A kernel image with one setup sector beyond the boot sector, the header end at 0x26C,
the magic "HdrS", load-flags 0x01, and the header's own ramdisk fields set to
0x12345678 and 0x10. -/
def image_with_ramdisk_fields : Nat → Nat :=
  image_of [(0x1F1, 1), (0x201, 0x6A), (0x202, 0x48), (0x203, 0x64), (0x204, 0x72),
    (0x205, 0x53), (0x211, 0x01), (0x218, 0x78), (0x219, 0x56), (0x21A, 0x34), (0x21B, 0x12),
    (0x21C, 0x10)]

/-- A kernel image like `image_with_ramdisk_fields` with the header's ramdisk fields
zero. -/
def image_plain : Nat → Nat :=
  image_of [(0x1F1, 1), (0x201, 0x6A), (0x202, 0x48), (0x203, 0x64), (0x204, 0x72),
    (0x205, 0x53), (0x211, 0x01)]

/-- No entry below the counter wraps around 2^64. -/
def Bounded (s : E820State) : Prop :=
  s.e820_nr_map ≤ 128 ∧
    ∀ i, i < s.e820_nr_map → (s.e820_map i).addr + (s.e820_map i).size < 2 ^ 64

/-- The coalescing append of the specification (§4.1, step 4) on a table without bound:
a region of the type of the last entry that starts where that entry ends extends it,
any other region becomes a new last entry. -/
def coalesce_step (es : List boot_e820_entry) (r : MemRegion) : List boot_e820_entry :=
  match es.getLast? with
  | some e =>
    if (e.addr + e.size) % 2 ^ 64 = r.start ∧ e.type = r.type then
      es.dropLast ++ [{ e with size := (e.size + r.size) % 2 ^ 64 }]
    else es ++ [⟨r.start, r.size, r.type⟩]
  | none => [⟨r.start, r.size, r.type⟩]

/-- The number of table entries the translation of a firmware memory map needs. -/
def entries_needed (rd : Nat → efi_memory_desc_t) (base size stride : Nat) : Nat :=
  (((descriptors rd base stride (size / stride)).flatMap emitted_regions).foldl
    coalesce_step []).length

/-- The byte address `b` lies in the entry. -/
def in_entry (e : boot_e820_entry) (b : Nat) : Prop := e.addr ≤ b ∧ b < e.addr + e.size

/-- The byte address `b` lies in the input region of the descriptor. -/
def in_input (d : efi_memory_desc_t) (b : Nat) : Prop :=
  d.phys_addr ≤ b ∧ b < d.phys_addr + d.num_pages * 4096

/-- The entries below the counter do not wrap, lie inside the set `F` of byte addresses
and are pairwise disjoint. -/
def DisjointIn (F : Nat → Prop) (s : E820State) : Prop :=
  Bounded s ∧ (∀ i, i < s.e820_nr_map → ∀ b, in_entry (s.e820_map i) b → F b) ∧
    (∀ i j, i < j → j < s.e820_nr_map → ∀ b,
      ¬ (in_entry (s.e820_map i) b ∧ in_entry (s.e820_map j) b))

/-- The byte address `b` lies in the region. -/
def in_region (r : MemRegion) (b : Nat) : Prop := r.start ≤ b ∧ b < r.start + r.size

/-- A kernel image like `image_plain` whose payload, from offset 0x400 on, starts with the
byte 0xFA and ends, at offset 0x7FF, with the byte 0x90. -/
def image_with_payload : Nat → Nat :=
  image_of [(0x1F1, 1), (0x201, 0x6A), (0x202, 0x48), (0x203, 0x64), (0x204, 0x72),
    (0x205, 0x53), (0x211, 0x01), (0x400, 0xFA), (0x7FF, 0x90)]

/-- A kernel image like `image_plain` with load-flags 0x80: bit 0 clear. -/
def image_loads_low : Nat → Nat :=
  image_of [(0x1F1, 1), (0x201, 0x6A), (0x202, 0x48), (0x203, 0x64), (0x204, 0x72),
    (0x205, 0x53), (0x211, 0x80)]

/-- The 128 reserved pages 8KiB apart from 2MiB on, no two of them adjacent. -/
def regions_128 : List MemRegion :=
  (List.range 128).map (fun i => ⟨0x200000 + i * 0x2000, 0x1000, E820_RESERVED⟩)

/-- The table after `add_memory_region` has taken the 128 regions of `regions_128`,
starting from the empty table. -/
def full_table : E820State := (feed ⟨zero_table, 0⟩ regions_128).state

/-- No entry below the counter wraps around 2^64, the counter is at most 128, and every
usable-RAM entry ends at or below 0xA0000 or starts at or above 0x100000. -/
def AvoidsHole (s : E820State) : Prop :=
  s.e820_nr_map ≤ 128 ∧
    ∀ i, i < s.e820_nr_map →
      (s.e820_map i).addr + (s.e820_map i).size < 2 ^ 64 ∧
      ((s.e820_map i).type = E820_RAM →
        (s.e820_map i).addr + (s.e820_map i).size ≤ 0xA0000 ∨ 0x100000 ≤ (s.e820_map i).addr)

/-- The region does not wrap around 2^64 and, when of type usable RAM, ends at or below
0xA0000 or starts at or above 0x100000. -/
def RegionAvoidsHole (r : MemRegion) : Prop :=
  r.start + r.size < 2 ^ 64 ∧
    (r.type = E820_RAM → r.start + r.size ≤ 0xA0000 ∨ 0x100000 ≤ r.start)

/-- A kernel image like `image_plain` whose byte at 0x201 is 0xFF, so that the encoded
header end is 0x301, with the bytes 0xAB at offset 0x2A0, 0xCD at 0x2D0 and 0xEF at
0x300. -/
def image_long_header : Nat → Nat :=
  image_of [(0x1F1, 1), (0x201, 0xFF), (0x202, 0x48), (0x203, 0x64), (0x204, 0x72),
    (0x205, 0x53), (0x211, 0x01), (0x2A0, 0xAB), (0x2D0, 0xCD), (0x300, 0xEF)]

/-! ## Lemmas on the translation loop -/

theorem feed_append (s : E820State) (xs ys : List MemRegion) :
    feed s (xs ++ ys) =
      match feed s xs with
      | .halted s1 => .halted s1
      | .done s1 => feed s1 ys := by
  induction xs generalizing s with
  | nil => simp [feed]
  | cons r rs ih =>
    simp only [List.cons_append, feed]
    cases add_memory_region s r.start r.size r.type with
    | halted s1 => rfl
    | done s1 => exact ih s1

theorem feed_one (s : E820State) (r : MemRegion) :
    feed s [r] = add_memory_region s r.start r.size r.type := by
  simp only [feed]
  cases add_memory_region s r.start r.size r.type <;> rfl

theorem feed_two (s : E820State) (r1 r2 : MemRegion) :
    feed s [r1, r2] =
      match add_memory_region s r1.start r1.size r1.type with
      | .halted s1 => .halted s1
      | .done s1 => add_memory_region s1 r2.start r2.size r2.type := by
  simp only [feed]
  cases add_memory_region s r1.start r1.size r1.type with
  | halted s1 => rfl
  | done s1 =>
    simp only []
    cases add_memory_region s1 r2.start r2.size r2.type <;> rfl

theorem add_then_break_eq (s : E820State) (a b c : Nat) :
    add_then_break s a b c = flow_of (add_memory_region s a b c) false := by
  unfold add_then_break flow_of
  cases add_memory_region s a b c <;> rfl

theorem switch_body_eq_feed (md : efi_memory_desc_t) (s : E820State) :
    switch_body md s = flow_of (feed s (emitted_regions md)) (decide (takes_continue md)) := by
  suffices h : ∀ c : Bool, (c = true ↔ takes_continue md) →
      switch_body md s = flow_of (feed s (emitted_regions md)) c from
    h _ (by simp)
  intro c hcc
  unfold takes_continue at hcc
  unfold switch_body emitted_regions
  simp only [add_then_break_eq]
  generalize (md.num_pages <<< EFI_PAGE_SHIFT) % 2 ^ 64 = sz at hcc ⊢
  generalize (md.phys_addr + sz) % 2 ^ 64 = e at hcc ⊢
  generalize md.phys_addr = a at hcc ⊢
  generalize md.type = t at hcc ⊢
  by_cases hram : is_ram_class t
  · have hram2 := hram
    simp only [is_ram_class, EFI_LOADER_CODE, EFI_LOADER_DATA, EFI_BOOT_SERVICES_CODE,
      EFI_BOOT_SERVICES_DATA, EFI_CONVENTIONAL_MEMORY] at hram2
    have h9 : ¬ t = EFI_ACPI_RECLAIM_MEMORY := by
      simp only [EFI_ACPI_RECLAIM_MEMORY]; omega
    have hres : ¬ (t = EFI_RUNTIME_SERVICES_CODE ∨ t = EFI_RUNTIME_SERVICES_DATA
      ∨ t = EFI_RESERVED_TYPE ∨ t = EFI_MEMORY_MAPPED_IO
      ∨ t = EFI_MEMORY_MAPPED_IO_PORT_SPACE ∨ t = EFI_UNUSABLE_MEMORY
      ∨ t = EFI_PAL_CODE) := by
      simp only [EFI_RUNTIME_SERVICES_CODE, EFI_RUNTIME_SERVICES_DATA, EFI_RESERVED_TYPE,
        EFI_MEMORY_MAPPED_IO, EFI_MEMORY_MAPPED_IO_PORT_SPACE, EFI_UNUSABLE_MEMORY,
        EFI_PAL_CODE]
      omega
    have hram3 : t = EFI_LOADER_CODE ∨ t = EFI_LOADER_DATA
      ∨ t = EFI_BOOT_SERVICES_CODE ∨ t = EFI_BOOT_SERVICES_DATA
      ∨ t = EFI_CONVENTIONAL_MEMORY := hram
    simp only [hram, true_and] at hcc
    simp only [if_neg h9, if_neg hres, if_pos hram3, if_pos hram]
    by_cases hh : a < 0x100000 ∧ e > 0xA0000
    · simp only [if_pos hh]
      by_cases hlo : a < 0xA0000
      · by_cases hhi : e ≤ 0x100000
        · have hc : a < 0x100000 ∧ e > 0xA0000 ∧ e ≤ 0x100000 := ⟨hh.1, hh.2, hhi⟩
          have hct : c = true := hcc.2 hc
          subst hct
          simp only [if_pos hlo, if_pos hhi, List.append_nil, feed_one, flow_of, ↓reduceIte]
        · have hc : ¬ (a < 0x100000 ∧ e > 0xA0000 ∧ e ≤ 0x100000) := fun h => hhi h.2.2
          have hct : c = false := by
            cases c
            · rfl
            · exact absurd (hcc.1 rfl) hc
          subst hct
          simp only [if_pos hlo, if_neg hhi, List.singleton_append, feed_two, flow_of, ↓reduceIte,
            Bool.false_eq_true]
          cases add_memory_region s a (0xA0000 - a) E820_RAM with
          | halted s1 => rfl
          | done s1 => rfl
      · by_cases hhi : e ≤ 0x100000
        · have hc : a < 0x100000 ∧ e > 0xA0000 ∧ e ≤ 0x100000 := ⟨hh.1, hh.2, hhi⟩
          have hct : c = true := hcc.2 hc
          subst hct
          simp only [if_neg hlo, if_pos hhi, List.append_nil, feed, flow_of, ↓reduceIte]
        · have hc : ¬ (a < 0x100000 ∧ e > 0xA0000 ∧ e ≤ 0x100000) := fun h => hhi h.2.2
          have hct : c = false := by
            cases c
            · rfl
            · exact absurd (hcc.1 rfl) hc
          subst hct
          simp only [if_neg hlo, if_neg hhi, List.nil_append, feed_one]
    · have hc : ¬ (a < 0x100000 ∧ e > 0xA0000 ∧ e ≤ 0x100000) := fun h => hh ⟨h.1, h.2.1⟩
      have hct : c = false := by
        cases c
        · rfl
        · exact absurd (hcc.1 rfl) hc
      subst hct
      simp only [if_neg hh, feed_one]
  · have hram3 : ¬ (t = EFI_LOADER_CODE ∨ t = EFI_LOADER_DATA
      ∨ t = EFI_BOOT_SERVICES_CODE ∨ t = EFI_BOOT_SERVICES_DATA
      ∨ t = EFI_CONVENTIONAL_MEMORY) := hram
    have hct : c = false := by
      cases c
      · rfl
      · exact absurd (hcc.1 rfl).1 hram
    subst hct
    simp only [if_neg hram3, if_neg hram, feed_one, e820_type_of]
    by_cases h9 : t = EFI_ACPI_RECLAIM_MEMORY
    · simp only [if_pos h9]
    · by_cases hres : t = EFI_RUNTIME_SERVICES_CODE ∨ t = EFI_RUNTIME_SERVICES_DATA
        ∨ t = EFI_RESERVED_TYPE ∨ t = EFI_MEMORY_MAPPED_IO
        ∨ t = EFI_MEMORY_MAPPED_IO_PORT_SPACE ∨ t = EFI_UNUSABLE_MEMORY
        ∨ t = EFI_PAL_CODE
      · have h10 : ¬ t = EFI_ACPI_MEMORY_NVS := by
          simp only [EFI_RUNTIME_SERVICES_CODE, EFI_RUNTIME_SERVICES_DATA, EFI_RESERVED_TYPE,
            EFI_MEMORY_MAPPED_IO, EFI_MEMORY_MAPPED_IO_PORT_SPACE, EFI_UNUSABLE_MEMORY,
            EFI_PAL_CODE] at hres
          simp only [EFI_ACPI_MEMORY_NVS]
          omega
        simp only [if_neg h9, if_pos hres, if_neg h10]
      · by_cases h10 : t = EFI_ACPI_MEMORY_NVS
        · simp only [if_neg h9, if_neg hres, if_pos h10]
        · simp only [if_neg h9, if_neg hres, if_neg h10]

theorem fill_loop_eq_feed (rd : Nat → efi_memory_desc_t) (stride k p : Nat) (s : E820State) :
    fill_loop rd stride k p s = feed s ((visited rd stride k p).flatMap emitted_regions) := by
  induction k generalizing p s with
  | zero => simp [fill_loop, visited, feed]
  | succ k ih =>
    simp only [fill_loop, visited, List.flatMap_cons, feed_append, switch_body_eq_feed, flow_of]
    cases feed s (emitted_regions (rd p)) with
    | halted s1 => rfl
    | done s1 =>
      by_cases hc : takes_continue (rd p)
      · simp [hc, ih]
      · simp [hc, ih]

theorem fill_e820map_eq_feed (rd : Nat → efi_memory_desc_t) (base size stride : Nat)
    (tbl : Nat → boot_e820_entry) :
    fill_e820map rd base size stride tbl =
      feed ⟨tbl, 0⟩ ((visited rd stride (size / stride) base).flatMap emitted_regions) := by
  unfold fill_e820map
  exact fill_loop_eq_feed rd stride (size / stride) base ⟨tbl, 0⟩

theorem feed_preserves (P : E820State → Prop) (Q : MemRegion → Prop)
    (hP : ∀ s r, Q r → P s → P (add_memory_region s r.start r.size r.type).state) :
    ∀ (rs : List MemRegion) (s : E820State), (∀ r ∈ rs, Q r) → P s → P (feed s rs).state := by
  intro rs
  induction rs with
  | nil => intro s _ h; exact h
  | cons r rs ih =>
    intro s hQ h
    have h1 := hP s r (hQ r (List.mem_cons_self r rs)) h
    simp only [feed]
    cases hr : add_memory_region s r.start r.size r.type with
    | halted s1 =>
      rw [hr] at h1
      exact h1
    | done s1 =>
      rw [hr] at h1
      exact ih s1 (fun r' hr' => hQ r' (List.mem_cons_of_mem r hr')) h1

theorem add_memory_region_no_mergeable (s : E820State) (start size type : Nat)
    (h : NoMergeablePair s) : NoMergeablePair (add_memory_region s start size type).state := by
  unfold add_memory_region
  simp only []
  split_ifs with h1 h2
  · exact h
  · intro i hi
    simp only [Run.state] at hi ⊢
    have hne : i ≠ s.e820_nr_map - 1 := by omega
    rw [Function.update_noteq hne]
    by_cases he : i + 1 = s.e820_nr_map - 1
    · rw [he, Function.update_same]
      simp only []
      rw [← he]
      exact h i hi
    · rw [Function.update_noteq he]
      exact h i hi
  · intro i hi
    simp only [Run.state] at hi ⊢
    have hle : (s.e820_nr_map + 1) % 2 ^ 32 ≤ s.e820_nr_map + 1 := Nat.mod_le _ _
    have hne : i ≠ s.e820_nr_map := by omega
    rw [Function.update_noteq hne]
    by_cases he : i + 1 = s.e820_nr_map
    · rw [he, Function.update_same]
      simp only []
      intro hc
      apply h2
      have hi' : i = s.e820_nr_map - 1 := by omega
      rw [← hi']
      exact ⟨by omega, hc.2, hc.1⟩
    · rw [Function.update_noteq he]
      exact h i (by omega)

theorem fill_e820map_no_mergeable (rd : Nat → efi_memory_desc_t) (base size stride : Nat)
    (tbl : Nat → boot_e820_entry) :
    NoMergeablePair (fill_e820map rd base size stride tbl).state := by
  rw [fill_e820map_eq_feed]
  apply feed_preserves NoMergeablePair (fun _ => True)
  · intro s r _ h
    exact add_memory_region_no_mergeable s r.start r.size r.type h
  · intro r _
    trivial
  · intro i hi
    exact absurd hi (Nat.not_lt_zero _)

theorem fill_e820map_single (rd : Nat → efi_memory_desc_t) (base size stride : Nat)
    (tbl : Nat → boot_e820_entry) (hn : size / stride = 1) :
    fill_e820map rd base size stride tbl = feed ⟨tbl, 0⟩ (emitted_regions (rd base)) := by
  rw [fill_e820map_eq_feed, hn]
  simp [visited]

theorem add_memory_region_first (tbl : Nat → boot_e820_entry) (a b c : Nat) :
    add_memory_region ⟨tbl, 0⟩ a b c = .done ⟨Function.update tbl 0 ⟨a, b, c⟩, 1⟩ := by
  simp [add_memory_region, E820_MAX_ENTRIES_ZEROPAGE]

theorem shift_pages (n : Nat) : n <<< EFI_PAGE_SHIFT = n * 4096 := by
  simp [EFI_PAGE_SHIFT, Nat.shiftLeft_eq]

theorem add_memory_region_types (s : E820State) (r : MemRegion)
    (hr : r.type = E820_RAM ∨ r.type = E820_RESERVED ∨ r.type = E820_ACPI ∨ r.type = E820_NVS)
    (h : TypesLegal s) : TypesLegal (add_memory_region s r.start r.size r.type).state := by
  unfold add_memory_region
  simp only []
  split_ifs with h1 h2
  · exact h
  · intro i hi
    simp only [Run.state] at hi ⊢
    by_cases he : i = s.e820_nr_map - 1
    · rw [he, Function.update_same]
      exact h _ (by omega)
    · rw [Function.update_noteq he]
      exact h i hi
  · intro i hi
    simp only [Run.state] at hi ⊢
    have hle : (s.e820_nr_map + 1) % 2 ^ 32 ≤ s.e820_nr_map + 1 := Nat.mod_le _ _
    by_cases he : i = s.e820_nr_map
    · rw [he, Function.update_same]
      exact hr
    · rw [Function.update_noteq he]
      exact h i (by omega)

theorem emitted_regions_types (md : efi_memory_desc_t) :
    ∀ r ∈ emitted_regions md,
      r.type = E820_RAM ∨ r.type = E820_RESERVED ∨ r.type = E820_ACPI ∨ r.type = E820_NVS := by
  intro r hr
  unfold emitted_regions at hr
  simp only [] at hr
  split_ifs at hr <;> simp at hr
  all_goals
    first
    | (rcases hr with h | h <;> subst h <;> simp)
    | (subst hr
       first
       | (left; rfl)
       | (unfold e820_type_of
          split_ifs <;> simp))

theorem emitted_regions_non_ram (md : efi_memory_desc_t) (h : ¬ is_ram_class md.type) :
    emitted_regions md
      = [⟨md.phys_addr, (md.num_pages * 4096) % 2 ^ 64, e820_type_of md.type⟩] := by
  unfold emitted_regions
  simp only [if_neg h, shift_pages]

theorem descriptors_succ (rd : Nat → efi_memory_desc_t) (base stride n : Nat) :
    descriptors rd base stride (n + 1) = rd base :: descriptors rd (base + stride) stride n := by
  unfold descriptors
  rw [List.range_succ_eq_map]
  simp only [List.map_cons, List.map_map, Nat.zero_mul, Nat.add_zero]
  congr 1
  apply List.map_congr_left
  intro i _
  simp only [Function.comp]
  congr 1
  rw [Nat.succ_mul]
  omega

theorem visited_eq_descriptors (rd : Nat → efi_memory_desc_t) (stride : Nat) :
    ∀ (n base : Nat), (∀ i, i + 1 < n → ¬ takes_continue (rd (base + i * stride))) →
      visited rd stride n base = descriptors rd base stride n := by
  intro n
  induction n with
  | zero => intro base _; rfl
  | succ n ih =>
    intro base h
    rw [descriptors_succ]
    simp only [visited]
    cases n with
    | zero => simp [visited, descriptors]
    | succ m =>
      have h0 : ¬ takes_continue (rd base) := by
        have := h 0 (by omega)
        simpa using this
      rw [if_neg h0, ih (base + stride)]
      intro i hi
      have := h (i + 1) (by omega)
      rw [Nat.succ_mul] at this
      have e : base + (i * stride + stride) = base + stride + i * stride := by omega
      rw [e] at this
      exact this

/-- When no descriptor but possibly the last takes the `continue`, `fill_e820map` is the
translation of the specification. -/
theorem fill_e820map_eq_translate_spec (rd : Nat → efi_memory_desc_t) (base size stride : Nat)
    (tbl : Nat → boot_e820_entry)
    (h : ∀ i, i + 1 < size / stride → ¬ takes_continue (rd (base + i * stride))) :
    fill_e820map rd base size stride tbl = translate_spec rd base size stride tbl := by
  rw [fill_e820map_eq_feed, visited_eq_descriptors rd stride _ base h]
  rfl

theorem store8_ne (mem : Nat → Nat) (off v j : Nat) (h : j ≠ off) :
    store8 mem off v j = mem j := by
  unfold store8
  exact Function.update_noteq h _ _

theorem store16_out (mem : Nat → Nat) (off v j : Nat) (h : j < off ∨ off + 2 ≤ j) :
    store16 mem off v j = mem j := by
  unfold store16
  rw [store8_ne _ _ _ _ (by omega), store8_ne _ _ _ _ (by omega)]

theorem store32_out (mem : Nat → Nat) (off v j : Nat) (h : j < off ∨ off + 4 ≤ j) :
    store32 mem off v j = mem j := by
  unfold store32
  rw [store16_out _ _ _ _ (by omega), store16_out _ _ _ _ (by omega)]

theorem store64_out (mem : Nat → Nat) (off v j : Nat) (h : j < off ∨ off + 8 ≤ j) :
    store64 mem off v j = mem j := by
  unfold store64
  rw [store32_out _ _ _ _ (by omega), store32_out _ _ _ _ (by omega)]

theorem setup_video_frame (BootArgs : MACH_BOOTARGS) (bp : Nat → Nat) (j : Nat)
    (h : 0x40 ≤ j) : setup_video BootArgs bp j = bp j := by
  unfold setup_video
  simp only [off_capabilities, off_screen_info_flags, off_lfb_base, off_lfb_size,
    off_lfb_width, off_lfb_height, off_lfb_depth, off_lfb_linelength, off_red_size,
    off_red_pos, off_green_size, off_green_pos, off_blue_size, off_blue_pos,
    off_orig_video_isVGA]
  rw [store8_ne _ _ _ _ (by omega), store8_ne _ _ _ _ (by omega), store8_ne _ _ _ _ (by omega),
    store8_ne _ _ _ _ (by omega), store8_ne _ _ _ _ (by omega), store8_ne _ _ _ _ (by omega),
    store8_ne _ _ _ _ (by omega), store16_out _ _ _ _ (by omega),
    store16_out _ _ _ _ (by omega), store16_out _ _ _ _ (by omega),
    store16_out _ _ _ _ (by omega), store32_out _ _ _ _ (by omega),
    store32_out _ _ _ _ (by omega), store8_ne _ _ _ _ (by omega),
    store32_out _ _ _ _ (by omega)]

theorem setup_efi_info_frame (BootArgs : MACH_BOOTARGS) (bp : Nat → Nat) (j : Nat)
    (h : j < 0x1c0 ∨ 0x1d8 ≤ j) : setup_efi_info BootArgs bp j = bp j := by
  unfold setup_efi_info
  simp only [off_efi_loader_signature, off_efi_systab, off_efi_memmap, off_efi_memmap_size,
    off_efi_memdesc_size, off_efi_memdesc_version]
  rw [store32_out _ _ _ _ (by omega), store32_out _ _ _ _ (by omega),
    store32_out _ _ _ _ (by omega), store32_out _ _ _ _ (by omega),
    store32_out _ _ _ _ (by omega), store32_out _ _ _ _ (by omega)]

theorem with_e820_table_frame (bp : Nat → Nat) (tbl : Nat → boot_e820_entry) (j : Nat)
    (h : j < 0x2d0 ∨ 0xcd0 ≤ j) : with_e820_table bp tbl j = bp j := by
  unfold with_e820_table
  simp only [off_e820_table, sizeof_boot_e820_entry, E820_MAX_ENTRIES_ZEROPAGE]
  rw [if_neg (by omega)]

theorem configure_setup_header_frame (BootArgs : MACH_BOOTARGS) (bp : Nat → Nat) (j : Nat)
    (h1 : j < 0x228 ∨ 0x22c ≤ j) (h2 : j < 0x1fa ∨ 0x1fc ≤ j) (h3 : j ≠ 0x210) :
    configure_setup_header BootArgs bp j = bp j := by
  unfold configure_setup_header
  simp only [off_cmd_line_ptr, off_vid_mode, off_type_of_loader]
  rw [store8_ne _ _ _ _ h3, store16_out _ _ _ _ h2, store32_out _ _ _ _ h1]

theorem clear_early_messages_frame (bp : Nat → Nat) (j : Nat) (h : j ≠ 0x211) :
    clear_early_messages bp j = bp j := by
  unfold clear_early_messages
  simp only [off_loadflags]
  rw [store8_ne _ _ _ _ h]

theorem copy_setup_header_apply (kernel_ptr bp : Nat → Nat) (j : Nat) (h : j < 4096) :
    copy_setup_header kernel_ptr bp j =
      if 0x1f1 ≤ j ∧ j < load8 kernel_ptr 0x201 + 0x202 then load8 kernel_ptr j else 0 := by
  unfold copy_setup_header memcpy memset
  simp only [off_hdr, sizeof_boot_params]
  have hb : load8 kernel_ptr 0x201 < 256 := Nat.mod_lt _ (by decide)
  by_cases hj : 0x1f1 ≤ j ∧ j < load8 kernel_ptr 0x201 + 0x202
  · have h1 : 0x1f1 ≤ j ∧ j < 0x1f1 + (load8 kernel_ptr 0x201 + 0x202 - 0x1f1) := by omega
    have h2 : 0x1f1 + (j - 0x1f1) = j := by omega
    simp only [if_pos hj, if_pos h1, h2]
  · have h1 : ¬ (0x1f1 ≤ j ∧ j < 0x1f1 + (load8 kernel_ptr 0x201 + 0x202 - 0x1f1)) := by omega
    have h2 : 0 ≤ j ∧ j < 0 + 4096 := by omega
    simp only [if_neg hj, if_neg h1, if_pos h2]

theorem load32_eq_magic (mem : Nat → Nat) (off : Nat) :
    load32 mem off = 0x53726448 ↔
      (load8 mem off = 0x48 ∧ load8 mem (off + 1) = 0x64 ∧ load8 mem (off + 2) = 0x72
        ∧ load8 mem (off + 3) = 0x53) := by
  unfold load32 load16
  have h0 : load8 mem off < 256 := Nat.mod_lt _ (by decide)
  have h1 : load8 mem (off + 1) < 256 := Nat.mod_lt _ (by decide)
  have h2 : load8 mem (off + 2) < 256 := Nat.mod_lt _ (by decide)
  have h3 : load8 mem (off + 2 + 1) < 256 := Nat.mod_lt _ (by decide)
  have e : off + 2 + 1 = off + 3 := rfl
  rw [e] at h3 ⊢
  constructor
  · intro h
    omega
  · intro h
    omega

theorem setup_ramdisk_absent (initrd_ptr : Nat) (bp : Nat → Nat) :
    setup_ramdisk initrd_ptr 0 bp = bp := by
  unfold setup_ramdisk
  simp

theorem setup_ramdisk_frame (initrd_ptr initrd_len : Nat) (bp : Nat → Nat) (j : Nat)
    (h : initrd_len = 0 ∨ j < 0x218 ∨ 0x220 ≤ j) :
    setup_ramdisk initrd_ptr initrd_len bp j = bp j := by
  unfold setup_ramdisk
  by_cases h0 : initrd_len = 0
  · simp [h0]
  · rw [if_pos h0]
    simp only [off_ramdisk_image, off_ramdisk_size]
    rw [store32_out _ _ _ _ (by omega), store32_out _ _ _ _ (by omega)]

/-- Outside the fields that `LoadLinux` stores to after the header copy, the bytes of the
header area of the final parameter block are those of the header copy, on every path. -/
theorem LoadLinux_header_bytes (BootArgs : MACH_BOOTARGS) (nr_tables : Nat)
    (config_tables : Nat → efi_config_table_t) (rd : Nat → efi_memory_desc_t)
    (bp_addr : Nat) (kernel_ptr : Nat → Nat) (kernel_len initrd_ptr initrd_len : Nat)
    (m : Machine) (j : Nat) (h1 : 0x1f1 ≤ j) (h2 : j < 0x2d0)
    (h3 : j ≠ 0x1fa ∧ j ≠ 0x1fb ∧ j ≠ 0x210 ∧ j ≠ 0x211) (h4 : j < 0x228 ∨ 0x22c ≤ j)
    (h5 : initrd_len = 0 ∨ j < 0x218 ∨ 0x220 ≤ j) :
    (LoadLinux BootArgs nr_tables config_tables rd bp_addr kernel_ptr kernel_len initrd_ptr
      initrd_len m).machine.boot_params j = copy_setup_header kernel_ptr m.boot_params j := by
  have hc : configure_setup_header BootArgs (copy_setup_header kernel_ptr m.boot_params) j
      = copy_setup_header kernel_ptr m.boot_params j :=
    configure_setup_header_frame _ _ _ h4 (by omega) h3.2.2.1
  have h3' : setup_video BootArgs (setup_ramdisk initrd_ptr initrd_len
      (clear_early_messages
        (configure_setup_header BootArgs (copy_setup_header kernel_ptr m.boot_params)))) j
      = copy_setup_header kernel_ptr m.boot_params j := by
    rw [setup_video_frame _ _ _ (by omega), setup_ramdisk_frame _ _ _ _ h5,
      clear_early_messages_frame _ _ h3.2.2.2, hc]
  unfold LoadLinux
  simp only []
  split_ifs with hf
  · exact hc
  · cases AcpiGetRsdp nr_tables config_tables with
    | none => exact h3'
    | some rsdp =>
      simp only []
      split
      · simp only [Outcome.machine]
        rw [with_e820_table_frame _ _ _ (Or.inl h2), setup_efi_info_frame _ _ _ (by omega),
          store64_out _ _ _ _ (by simp only [off_acpi_rsdp_addr]; omega), h3']
      · simp only [Outcome.machine]
        rw [store8_ne _ _ _ _ (by simp only [off_e820_entries]; omega),
          with_e820_table_frame _ _ _ (Or.inl h2), setup_efi_info_frame _ _ _ (by omega),
          store64_out _ _ _ _ (by simp only [off_acpi_rsdp_addr]; omega), h3']

/-- The only halts of `LoadLinux`. -/
theorem LoadLinux_fatal_cases (BootArgs : MACH_BOOTARGS) (nr_tables : Nat)
    (config_tables : Nat → efi_config_table_t) (rd : Nat → efi_memory_desc_t)
    (bp_addr : Nat) (kernel_ptr : Nat → Nat) (kernel_len initrd_ptr initrd_len : Nat)
    (m : Machine) (e : Fatal) (m1 : Machine)
    (h : LoadLinux BootArgs nr_tables config_tables rd bp_addr kernel_ptr kernel_len initrd_ptr
      initrd_len m = .fatal e m1) :
    (e = .loads_at_0x10000 ∧ load8 (copy_setup_header kernel_ptr m.boot_params) 0x211 % 2 = 0)
      ∨ e = .no_acpi_table ∨ e = .too_many_entries := by
  unfold LoadLinux at h
  simp only [] at h
  split_ifs at h with hf
  · left
    injection h with he _
    refine ⟨he.symm, ?_⟩
    rw [Nat.and_one_is_mod] at hf
    unfold load8 at hf ⊢
    rw [configure_setup_header_frame _ _ _ (by decide) (by decide) (by decide)] at hf
    exact hf
  · cases hr : AcpiGetRsdp nr_tables config_tables with
    | none =>
      rw [hr] at h
      injection h with he _
      exact Or.inr (Or.inl he.symm)
    | some rsdp =>
      rw [hr] at h
      simp only [] at h
      split at h
      · injection h with he _
        exact Or.inr (Or.inr he.symm)
      · cases h

theorem add_memory_region_within_table (tbl : Nat → boot_e820_entry) (s : E820State)
    (start size type : Nat)
    (h : s.e820_nr_map ≤ 128 ∧ ∀ i, 128 ≤ i → s.e820_map i = tbl i) :
    (add_memory_region s start size type).state.e820_nr_map ≤ 128 ∧
      ∀ i, 128 ≤ i → (add_memory_region s start size type).state.e820_map i = tbl i := by
  unfold add_memory_region
  simp only [E820_MAX_ENTRIES_ZEROPAGE]
  split_ifs with h1 h2
  · exact h
  · refine ⟨h.1, ?_⟩
    intro i hi
    simp only [Run.state]
    rw [Function.update_noteq (by omega)]
    exact h.2 i hi
  · have hlt : s.e820_nr_map < 128 := by omega
    refine ⟨?_, ?_⟩
    · simp only [Run.state]
      rw [Nat.mod_eq_of_lt (by omega)]
      omega
    · intro i hi
      simp only [Run.state]
      rw [Function.update_noteq (by omega)]
      exact h.2 i hi

/-- On every run of `fill_e820map`, completed or halted, the counter is at most 128 and
the slots from 128 on hold what they held before. -/
theorem fill_e820map_within_table (rd : Nat → efi_memory_desc_t) (base size stride : Nat)
    (tbl : Nat → boot_e820_entry) :
    (fill_e820map rd base size stride tbl).state.e820_nr_map ≤ 128 ∧
      ∀ i, 128 ≤ i → (fill_e820map rd base size stride tbl).state.e820_map i = tbl i := by
  rw [fill_e820map_eq_feed]
  apply feed_preserves
    (fun s => s.e820_nr_map ≤ 128 ∧ ∀ i, 128 ≤ i → s.e820_map i = tbl i) (fun _ => True)
  · intro s r _ h
    exact add_memory_region_within_table tbl s r.start r.size r.type h
  · intro r _
    trivial
  · exact ⟨Nat.zero_le _, fun _ _ => rfl⟩

theorem total_size_eq (s : E820State) :
    total_size s = ((List.range s.e820_nr_map).map (fun i => (s.e820_map i).size)).sum := by
  unfold total_size E820State.entries
  rw [List.map_map]
  rfl

theorem sum_sizes_update_last (f : Nat → boot_e820_entry) (n : Nat) (e : boot_e820_entry) :
    ((List.range (n + 1)).map (fun i => (Function.update f n e i).size)).sum
      = ((List.range n).map (fun i => (f i).size)).sum + e.size := by
  rw [List.sum_range_succ]
  simp only [Function.update_same]
  congr 2
  apply List.map_congr_left
  intro i hi
  rw [List.mem_range] at hi
  rw [Function.update_noteq (by omega)]

theorem add_memory_region_total (s s1 : E820State) (r : MemRegion)
    (hr : r.start + r.size < 2 ^ 64) (hs : Bounded s)
    (h : add_memory_region s r.start r.size r.type = .done s1) :
    Bounded s1 ∧ total_size s1 = total_size s + r.size := by
  unfold add_memory_region at h
  simp only [E820_MAX_ENTRIES_ZEROPAGE] at h
  split_ifs at h with h1 h2
  · injection h with h
    subst h
    obtain ⟨hx, hend, _⟩ := h2
    have hb := hs.2 (s.e820_nr_map - 1) (by omega)
    rw [Nat.mod_eq_of_lt hb] at hend
    have hsz : ((s.e820_map (s.e820_nr_map - 1)).size + r.size) % 2 ^ 64
        = (s.e820_map (s.e820_nr_map - 1)).size + r.size := Nat.mod_eq_of_lt (by omega)
    constructor
    · refine ⟨hs.1, ?_⟩
      intro i hi
      dsimp only at hi ⊢
      by_cases he : i = s.e820_nr_map - 1
      · rw [he, Function.update_same]
        dsimp only
        rw [hsz]
        omega
      · rw [Function.update_noteq he]
        exact hs.2 i hi
    · rw [total_size_eq, total_size_eq]
      dsimp only
      obtain ⟨n, hn⟩ : ∃ n, s.e820_nr_map = n + 1 := ⟨s.e820_nr_map - 1, by omega⟩
      rw [hn, Nat.add_sub_cancel, sum_sizes_update_last, List.sum_range_succ]
      simp only [hn, Nat.add_sub_cancel] at hsz
      dsimp only
      rw [hsz]
      omega
  · injection h with h
    subst h
    have hlt : s.e820_nr_map < 128 := by
      have := hs.1
      omega
    have hm : (s.e820_nr_map + 1) % 2 ^ 32 = s.e820_nr_map + 1 := Nat.mod_eq_of_lt (by omega)
    constructor
    · refine ⟨by dsimp only; omega, ?_⟩
      intro i hi
      dsimp only at hi ⊢
      rw [hm] at hi
      by_cases he : i = s.e820_nr_map
      · rw [he, Function.update_same]
        exact hr
      · rw [Function.update_noteq he]
        exact hs.2 i (by omega)
    · rw [total_size_eq, total_size_eq]
      dsimp only
      rw [hm, sum_sizes_update_last]

theorem feed_total (rs : List MemRegion) :
    ∀ (s s1 : E820State), (∀ r ∈ rs, r.start + r.size < 2 ^ 64) → Bounded s →
      feed s rs = .done s1 →
      Bounded s1 ∧ total_size s1 = total_size s + (rs.map (fun r => r.size)).sum := by
  induction rs with
  | nil =>
    intro s s1 _ hs h
    simp only [feed] at h
    injection h with h
    subst h
    exact ⟨hs, by simp⟩
  | cons r rs ih =>
    intro s s1 hr hs h
    simp only [feed] at h
    cases hadd : add_memory_region s r.start r.size r.type with
    | halted s2 =>
      rw [hadd] at h
      cases h
    | done s2 =>
      rw [hadd] at h
      have h1 := add_memory_region_total s s2 r (hr r (List.mem_cons_self r rs)) hs hadd
      have h2 := ih s2 s1 (fun r1 hr1 => hr r1 (List.mem_cons_of_mem r hr1)) h1.1 h
      refine ⟨h2.1, ?_⟩
      rw [h2.2, h1.2, List.map_cons, List.sum_cons]
      omega

theorem emitted_regions_total (md : efi_memory_desc_t)
    (hov : md.phys_addr + md.num_pages * 4096 < 2 ^ 64) :
    (∀ r ∈ emitted_regions md, r.start + r.size < 2 ^ 64) ∧
      ((emitted_regions md).map (fun r => r.size)).sum + hole_bytes md = input_size md := by
  have hsz : (md.num_pages <<< EFI_PAGE_SHIFT) % 2 ^ 64 = md.num_pages * 4096 := by
    rw [shift_pages]
    exact Nat.mod_eq_of_lt (by omega)
  have he : (md.phys_addr + md.num_pages * 4096) % 2 ^ 64
      = md.phys_addr + md.num_pages * 4096 := Nat.mod_eq_of_lt hov
  unfold emitted_regions hole_bytes input_size
  simp only [hsz, he]
  by_cases hram : is_ram_class md.type
  · simp only [if_pos hram]
    by_cases hh : md.phys_addr < 0x100000 ∧ md.phys_addr + md.num_pages * 4096 > 0xA0000
    · simp only [if_pos hh]
      by_cases hlo : md.phys_addr < 0xA0000
      · by_cases hhi : md.phys_addr + md.num_pages * 4096 ≤ 0x100000
        · simp only [if_pos hlo, if_pos hhi, List.append_nil, List.mem_singleton,
            List.map_cons, List.map_nil, List.sum_cons, List.sum_nil, forall_eq]
          constructor <;> omega
        · obtain ⟨w, hw⟩ : ∃ w, w = md.phys_addr + md.num_pages * 4096 - 0x100000 := ⟨_, rfl⟩
          simp only [if_pos hlo, if_neg hhi, ← hw, List.singleton_append, List.map_cons,
            List.map_nil, List.sum_cons, List.sum_nil]
          constructor
          · intro r hr
            simp only [List.mem_cons, List.mem_singleton, List.not_mem_nil, or_false] at hr
            rcases hr with hr | hr
            · subst hr
              dsimp only
              omega
            · subst hr
              dsimp only
              omega
          · omega
      · by_cases hhi : md.phys_addr + md.num_pages * 4096 ≤ 0x100000
        · simp only [if_neg hlo, if_pos hhi, List.append_nil, List.not_mem_nil,
            List.map_nil, List.sum_nil]
          constructor
          · intro r hr
            exact absurd hr (by simp)
          · omega
        · obtain ⟨w, hw⟩ : ∃ w, w = md.phys_addr + md.num_pages * 4096 - 0x100000 := ⟨_, rfl⟩
          simp only [if_neg hlo, if_neg hhi, ← hw, List.nil_append, List.mem_singleton,
            List.map_cons, List.map_nil, List.sum_cons, List.sum_nil, forall_eq]
          constructor <;> omega
    · simp only [if_neg hh, List.mem_singleton, List.map_cons, List.map_nil, List.sum_cons,
        List.sum_nil, forall_eq]
      constructor <;> omega
  · simp only [if_neg hram, List.mem_singleton, List.map_cons, List.map_nil, List.sum_cons,
      List.sum_nil, forall_eq]
    constructor <;> omega

theorem flatMap_emitted_total (ds : List efi_memory_desc_t)
    (hov : ∀ d ∈ ds, d.phys_addr + d.num_pages * 4096 < 2 ^ 64) :
    (∀ r ∈ ds.flatMap emitted_regions, r.start + r.size < 2 ^ 64) ∧
      ((ds.flatMap emitted_regions).map (fun r => r.size)).sum + (ds.map hole_bytes).sum
        = (ds.map input_size).sum := by
  induction ds with
  | nil => simp
  | cons d ds ih =>
    have h1 := emitted_regions_total d (hov d (List.mem_cons_self d ds))
    have h2 := ih (fun d1 hd1 => hov d1 (List.mem_cons_of_mem d hd1))
    constructor
    · intro r hr
      rw [List.flatMap_cons, List.mem_append] at hr
      rcases hr with hr | hr
      · exact h1.1 r hr
      · exact h2.1 r hr
    · rw [List.flatMap_cons, List.map_append, List.sum_append, List.map_cons, List.sum_cons,
        List.map_cons, List.sum_cons]
      omega

/-- When no descriptor but possibly the last takes the `continue`, no input region wraps
around 2^64 and the capacity error is not hit, the entry sizes sum to the input sizes
minus the bytes of usable-RAM-class descriptors inside the hole. -/
theorem size_sum_without_continue (rd : Nat → efi_memory_desc_t) (base size stride : Nat)
    (tbl : Nat → boot_e820_entry)
    (hcont : ∀ i, i + 1 < size / stride → ¬ takes_continue (rd (base + i * stride)))
    (hov : ∀ d ∈ descriptors rd base stride (size / stride),
      d.phys_addr + d.num_pages * 4096 < 2 ^ 64)
    (hok : (fill_e820map rd base size stride tbl).isHalted = false) :
    total_size (fill_e820map rd base size stride tbl).state
      = expected_total (descriptors rd base stride (size / stride)) := by
  rw [fill_e820map_eq_translate_spec rd base size stride tbl hcont] at hok ⊢
  unfold translate_spec at hok ⊢
  have h := flatMap_emitted_total _ hov
  cases hf : feed ⟨tbl, 0⟩ ((descriptors rd base stride (size / stride)).flatMap emitted_regions)
    with
  | halted s1 =>
    rw [hf] at hok
    cases hok
  | done s1 =>
    have h0 : Bounded ⟨tbl, 0⟩ := ⟨Nat.zero_le _, fun i hi => absurd hi (Nat.not_lt_zero _)⟩
    have h3 := feed_total _ _ _ h.1 h0 hf
    have hz : total_size ⟨tbl, 0⟩ = 0 := rfl
    unfold expected_total
    simp only [Run.state]
    rw [h3.2, hz]
    omega

theorem entries_succ (f : Nat → boot_e820_entry) (n : Nat) :
    (List.range (n + 1)).map f = (List.range n).map f ++ [f n] := by
  rw [List.range_succ, List.map_append]
  rfl

theorem add_memory_region_coalesce (s s1 : E820State) (r : MemRegion)
    (hn : s.e820_nr_map ≤ 128)
    (h : add_memory_region s r.start r.size r.type = .done s1) :
    s1.e820_nr_map ≤ 128 ∧ s1.entries = coalesce_step s.entries r := by
  unfold add_memory_region at h
  simp only [E820_MAX_ENTRIES_ZEROPAGE] at h
  split_ifs at h with h1 h2
  · injection h with h
    subst h
    obtain ⟨n, hn1⟩ : ∃ n, s.e820_nr_map = n + 1 := ⟨s.e820_nr_map - 1, by omega⟩
    refine ⟨hn, ?_⟩
    unfold coalesce_step E820State.entries
    dsimp only
    rw [hn1, Nat.add_sub_cancel] at h2 ⊢
    rw [entries_succ, entries_succ, List.getLast?_concat]
    simp only [List.dropLast_concat, Function.update_same]
    rw [if_pos ⟨h2.2.1, h2.2.2⟩]
    congr 1
    apply List.map_congr_left
    intro i hi
    rw [List.mem_range] at hi
    rw [Function.update_noteq (by omega)]
  · injection h with h
    subst h
    have hlt : s.e820_nr_map < 128 := by omega
    have hm : (s.e820_nr_map + 1) % 2 ^ 32 = s.e820_nr_map + 1 := Nat.mod_eq_of_lt (by omega)
    refine ⟨by dsimp only; omega, ?_⟩
    unfold coalesce_step E820State.entries
    dsimp only
    rw [hm, entries_succ, Function.update_same]
    have hpre : (List.range s.e820_nr_map).map
        (Function.update s.e820_map s.e820_nr_map ⟨r.start, r.size, r.type⟩)
        = (List.range s.e820_nr_map).map s.e820_map := by
      apply List.map_congr_left
      intro i hi
      rw [List.mem_range] at hi
      rw [Function.update_noteq (by omega)]
    rw [hpre]
    by_cases h0 : s.e820_nr_map = 0
    · simp [h0]
    · obtain ⟨n, hn1⟩ : ∃ n, s.e820_nr_map = n + 1 := ⟨s.e820_nr_map - 1, by omega⟩
      rw [hn1, Nat.add_sub_cancel] at h2
      rw [hn1, entries_succ, List.getLast?_concat]
      simp only []
      rw [if_neg (fun hc => h2 ⟨Nat.succ_pos n, hc.1, hc.2⟩)]

theorem feed_coalesce (rs : List MemRegion) :
    ∀ (s s1 : E820State), s.e820_nr_map ≤ 128 → feed s rs = .done s1 →
      s1.e820_nr_map ≤ 128 ∧ s1.entries = rs.foldl coalesce_step s.entries := by
  induction rs with
  | nil =>
    intro s s1 hn h
    simp only [feed] at h
    injection h with h
    subst h
    exact ⟨hn, rfl⟩
  | cons r rs ih =>
    intro s s1 hn h
    simp only [feed] at h
    cases hadd : add_memory_region s r.start r.size r.type with
    | halted s2 =>
      rw [hadd] at h
      cases h
    | done s2 =>
      rw [hadd] at h
      have h1 := add_memory_region_coalesce s s2 r hn hadd
      have h2 := ih s2 s1 h1.1 h
      rw [List.foldl_cons, ← h1.2]
      exact h2

/-- When no descriptor but possibly the last takes the `continue`, a firmware memory map
whose translation needs more than 128 entries makes `fill_e820map` halt in the capacity
error. -/
theorem capacity_error_without_continue (rd : Nat → efi_memory_desc_t)
    (base size stride : Nat) (tbl : Nat → boot_e820_entry)
    (hcont : ∀ i, i + 1 < size / stride → ¬ takes_continue (rd (base + i * stride)))
    (hneed : 128 < entries_needed rd base size stride) :
    (fill_e820map rd base size stride tbl).isHalted = true := by
  rw [fill_e820map_eq_translate_spec rd base size stride tbl hcont]
  unfold translate_spec
  cases hf : feed ⟨tbl, 0⟩ ((descriptors rd base stride (size / stride)).flatMap emitted_regions)
    with
  | halted s1 => rfl
  | done s1 =>
    exfalso
    have h := feed_coalesce _ _ _ (Nat.zero_le _) hf
    have hlen : s1.entries.length = s1.e820_nr_map := by
      unfold E820State.entries
      simp
    unfold entries_needed at hneed
    have he : (⟨tbl, 0⟩ : E820State).entries = [] := rfl
    rw [he] at h
    rw [← h.2, hlen] at hneed
    omega

/-- The capacity error of `LoadLinux` leaves the descriptor-table region as it was and
comes before the steps `prime_gdt`, `load_descriptor_tables` and `jump`. -/
theorem LoadLinux_capacity_error_before_handoff (BootArgs : MACH_BOOTARGS) (nr_tables : Nat)
    (config_tables : Nat → efi_config_table_t) (rd : Nat → efi_memory_desc_t)
    (bp_addr : Nat) (kernel_ptr : Nat → Nat) (kernel_len initrd_ptr initrd_len : Nat)
    (m m1 : Machine)
    (h : LoadLinux BootArgs nr_tables config_tables rd bp_addr kernel_ptr kernel_len initrd_ptr
      initrd_len m = .fatal .too_many_entries m1) :
    m1.gdt_region = m.gdt_region ∧
      m1.trace = m.trace ++ [.relocate, .zero_params, .copy_setup_header, .populate,
        .fill_e820map] := by
  unfold LoadLinux at h
  simp only [] at h
  split_ifs at h with hf
  · injection h with he _
    cases he
  · cases hr : AcpiGetRsdp nr_tables config_tables with
    | none =>
      rw [hr] at h
      injection h with he _
      cases he
    | some rsdp =>
      rw [hr] at h
      simp only [] at h
      split at h
      · injection h with _ hm
        subst hm
        exact ⟨rfl, rfl⟩
      · cases h

set_option maxRecDepth 20000 in
/-- The translation of `map_hole_then_129_reserved` needs 129 entries. -/
theorem entries_needed_hole_then_129_reserved :
    entries_needed (map_of map_hole_then_129_reserved 0 40) 0 5200 40 = 129 := by
  decide

theorem add_memory_region_disjoint (F : Nat → Prop) (s s1 : E820State) (r : MemRegion)
    (hr : r.start + r.size < 2 ^ 64) (hF : ∀ b, r.start ≤ b → b < r.start + r.size → ¬ F b)
    (hs : DisjointIn F s) (h : add_memory_region s r.start r.size r.type = .done s1) :
    DisjointIn (fun b => F b ∨ (r.start ≤ b ∧ b < r.start + r.size)) s1 := by
  have hB := (add_memory_region_total s s1 r hr hs.1 h).1
  refine ⟨hB, ?_, ?_⟩
  · unfold add_memory_region at h
    simp only [E820_MAX_ENTRIES_ZEROPAGE] at h
    split_ifs at h with h1 h2
    · injection h with h
      subst h
      obtain ⟨hx, hend, _⟩ := h2
      have hb := hs.1.2 (s.e820_nr_map - 1) (by omega)
      rw [Nat.mod_eq_of_lt hb] at hend
      have hsz : ((s.e820_map (s.e820_nr_map - 1)).size + r.size) % 2 ^ 64
          = (s.e820_map (s.e820_nr_map - 1)).size + r.size := Nat.mod_eq_of_lt (by omega)
      intro i hi b hin
      dsimp only at hi hin
      by_cases he : i = s.e820_nr_map - 1
      · rw [he, Function.update_same] at hin
        unfold in_entry at hin
        dsimp only at hin
        rw [hsz] at hin
        by_cases hold : b < (s.e820_map (s.e820_nr_map - 1)).addr
            + (s.e820_map (s.e820_nr_map - 1)).size
        · exact Or.inl (hs.2.1 _ (by omega) b ⟨hin.1, hold⟩)
        · exact Or.inr ⟨by omega, by omega⟩
      · rw [Function.update_noteq he] at hin
        exact Or.inl (hs.2.1 i hi b hin)
    · injection h with h
      subst h
      have hlt : s.e820_nr_map < 128 := by
        have := hs.1.1
        omega
      have hm : (s.e820_nr_map + 1) % 2 ^ 32 = s.e820_nr_map + 1 :=
        Nat.mod_eq_of_lt (by omega)
      intro i hi b hin
      dsimp only at hi hin
      rw [hm] at hi
      by_cases he : i = s.e820_nr_map
      · rw [he, Function.update_same] at hin
        exact Or.inr hin
      · rw [Function.update_noteq he] at hin
        exact Or.inl (hs.2.1 i (by omega) b hin)
  · unfold add_memory_region at h
    simp only [E820_MAX_ENTRIES_ZEROPAGE] at h
    split_ifs at h with h1 h2
    · injection h with h
      subst h
      obtain ⟨hx, hend, _⟩ := h2
      have hb := hs.1.2 (s.e820_nr_map - 1) (by omega)
      rw [Nat.mod_eq_of_lt hb] at hend
      have hsz : ((s.e820_map (s.e820_nr_map - 1)).size + r.size) % 2 ^ 64
          = (s.e820_map (s.e820_nr_map - 1)).size + r.size := Nat.mod_eq_of_lt (by omega)
      intro i j hij hj b hin
      dsimp only at hj hin
      have hi1 : i ≠ s.e820_nr_map - 1 := by omega
      rw [Function.update_noteq hi1] at hin
      by_cases he : j = s.e820_nr_map - 1
      · rw [he, Function.update_same] at hin
        obtain ⟨hin1, hin2⟩ := hin
        unfold in_entry at hin2
        dsimp only at hin2
        rw [hsz] at hin2
        by_cases hold : b < (s.e820_map (s.e820_nr_map - 1)).addr
            + (s.e820_map (s.e820_nr_map - 1)).size
        · exact hs.2.2 i (s.e820_nr_map - 1) (by omega) (by omega) b
            ⟨hin1, ⟨hin2.1, hold⟩⟩
        · exact hF b (by omega) (by omega) (hs.2.1 i (by omega) b hin1)
      · rw [Function.update_noteq he] at hin
        exact hs.2.2 i j hij hj b hin
    · injection h with h
      subst h
      have hlt : s.e820_nr_map < 128 := by
        have := hs.1.1
        omega
      have hm : (s.e820_nr_map + 1) % 2 ^ 32 = s.e820_nr_map + 1 :=
        Nat.mod_eq_of_lt (by omega)
      intro i j hij hj b hin
      dsimp only at hj hin
      rw [hm] at hj
      have hi1 : i ≠ s.e820_nr_map := by omega
      rw [Function.update_noteq hi1] at hin
      by_cases he : j = s.e820_nr_map
      · rw [he, Function.update_same] at hin
        exact hF b hin.2.1 hin.2.2 (hs.2.1 i (by omega) b hin.1)
      · rw [Function.update_noteq he] at hin
        exact hs.2.2 i j hij (by omega) b hin

theorem DisjointIn_mono (F G : Nat → Prop) (s : E820State) (hFG : ∀ b, F b → G b)
    (h : DisjointIn F s) : DisjointIn G s :=
  ⟨h.1, fun i hi b hb => hFG b (h.2.1 i hi b hb), h.2.2⟩

theorem feed_disjoint (rs : List MemRegion) :
    ∀ (F : Nat → Prop) (s s1 : E820State),
      (∀ r ∈ rs, r.start + r.size < 2 ^ 64) →
      rs.Pairwise (fun r1 r2 => ∀ b, ¬ (in_region r1 b ∧ in_region r2 b)) →
      (∀ r ∈ rs, ∀ b, in_region r b → ¬ F b) →
      DisjointIn F s → feed s rs = .done s1 →
      DisjointIn (fun b => F b ∨ ∃ r ∈ rs, in_region r b) s1 := by
  induction rs with
  | nil =>
    intro F s s1 _ _ _ hs h
    simp only [feed] at h
    injection h with h
    subst h
    exact DisjointIn_mono F _ s (fun b hb => Or.inl hb) hs
  | cons r rs ih =>
    intro F s s1 hb hp hF hs h
    simp only [feed] at h
    cases hadd : add_memory_region s r.start r.size r.type with
    | halted s2 =>
      rw [hadd] at h
      cases h
    | done s2 =>
      rw [hadd] at h
      rw [List.pairwise_cons] at hp
      have h1 := add_memory_region_disjoint F s s2 r (hb r (List.mem_cons_self r rs))
        (fun b hb1 hb2 => hF r (List.mem_cons_self r rs) b ⟨hb1, hb2⟩) hs hadd
      have h2 := ih (fun b => F b ∨ (r.start ≤ b ∧ b < r.start + r.size)) s2 s1
        (fun r1 hr1 => hb r1 (List.mem_cons_of_mem r hr1)) hp.2
        (fun r1 hr1 b hin hFb => by
          rcases hFb with hFb | hFb
          · exact hF r1 (List.mem_cons_of_mem r hr1) b hin hFb
          · exact hp.1 r1 hr1 b ⟨hFb, hin⟩)
        h1 h
      refine DisjointIn_mono _ _ s1 ?_ h2
      intro b hb1
      rcases hb1 with (hb1 | hb1) | ⟨r1, hr1, hb1⟩
      · exact Or.inl hb1
      · exact Or.inr ⟨r, List.mem_cons_self r rs, hb1⟩
      · exact Or.inr ⟨r1, List.mem_cons_of_mem r hr1, hb1⟩

theorem emitted_regions_inside (md : efi_memory_desc_t)
    (hov : md.phys_addr + md.num_pages * 4096 < 2 ^ 64) :
    (∀ r ∈ emitted_regions md, ∀ b, in_region r b → in_input md b) ∧
      (emitted_regions md).Pairwise (fun r1 r2 => ∀ b, ¬ (in_region r1 b ∧ in_region r2 b)) := by
  have hsz : (md.num_pages <<< EFI_PAGE_SHIFT) % 2 ^ 64 = md.num_pages * 4096 := by
    rw [shift_pages]
    exact Nat.mod_eq_of_lt (by omega)
  have he : (md.phys_addr + md.num_pages * 4096) % 2 ^ 64
      = md.phys_addr + md.num_pages * 4096 := Nat.mod_eq_of_lt hov
  unfold emitted_regions
  simp only [hsz, he]
  obtain ⟨w, hw⟩ : ∃ w, w = md.phys_addr + md.num_pages * 4096 - 0x100000 := ⟨_, rfl⟩
  rw [← hw]
  by_cases hram : is_ram_class md.type
  · simp only [if_pos hram]
    by_cases hh : md.phys_addr < 0x100000 ∧ md.phys_addr + md.num_pages * 4096 > 0xA0000
    · simp only [if_pos hh]
      by_cases hlo : md.phys_addr < 0xA0000
      · by_cases hhi : md.phys_addr + md.num_pages * 4096 ≤ 0x100000
        · simp only [if_pos hlo, if_pos hhi, List.append_nil, List.mem_singleton, forall_eq,
            List.pairwise_cons, List.not_mem_nil, List.Pairwise.nil, and_true]
          refine ⟨?_, fun _ h => absurd h (by simp)⟩
          intro b hb
          unfold in_region at hb
          unfold in_input
          dsimp only at hb
          omega
        · simp only [if_pos hlo, if_neg hhi, List.singleton_append, List.pairwise_cons,
            List.mem_singleton, forall_eq, List.not_mem_nil, List.Pairwise.nil, and_true]
          refine ⟨?_, ?_, fun _ h => absurd h (by simp)⟩
          · intro r hr b hb
            simp only [List.mem_cons, List.mem_singleton, List.not_mem_nil, or_false] at hr
            unfold in_region at hb
            unfold in_input
            rcases hr with hr | hr
            · subst hr
              dsimp only at hb
              omega
            · subst hr
              dsimp only at hb
              omega
          · intro b hb
            unfold in_region at hb
            dsimp only at hb
            omega
      · by_cases hhi : md.phys_addr + md.num_pages * 4096 ≤ 0x100000
        · simp only [if_neg hlo, if_pos hhi, List.append_nil, List.Pairwise.nil, and_true]
          intro r hr
          exact absurd hr (by simp)
        · simp only [if_neg hlo, if_neg hhi, List.nil_append, List.mem_singleton, forall_eq,
            List.pairwise_cons, List.not_mem_nil, List.Pairwise.nil, and_true]
          refine ⟨?_, fun _ h => absurd h (by simp)⟩
          intro b hb
          unfold in_region at hb
          unfold in_input
          dsimp only at hb
          omega
    · simp only [if_neg hh, List.mem_singleton, forall_eq, List.pairwise_cons,
        List.not_mem_nil, List.Pairwise.nil, and_true]
      refine ⟨?_, fun _ h => absurd h (by simp)⟩
      intro b hb
      exact hb
  · simp only [if_neg hram, List.mem_singleton, forall_eq, List.pairwise_cons,
      List.not_mem_nil, List.Pairwise.nil, and_true]
    refine ⟨?_, fun _ h => absurd h (by simp)⟩
    intro b hb
    exact hb

/-- When no descriptor but possibly the last takes the `continue`, the input regions are
pairwise non-overlapping and do not wrap around 2^64 and the capacity error is not hit,
no two distinct entries of the table overlap. -/
theorem entries_disjoint_without_continue (rd : Nat → efi_memory_desc_t)
    (base size stride : Nat) (tbl : Nat → boot_e820_entry)
    (hcont : ∀ i, i + 1 < size / stride → ¬ takes_continue (rd (base + i * stride)))
    (hov : ∀ d ∈ descriptors rd base stride (size / stride),
      d.phys_addr + d.num_pages * 4096 < 2 ^ 64)
    (hdisj : (descriptors rd base stride (size / stride)).Pairwise
      (fun d1 d2 => ¬ InputOverlap d1 d2))
    (hok : (fill_e820map rd base size stride tbl).isHalted = false) :
    ∀ i j, i < j → j < (fill_e820map rd base size stride tbl).state.e820_nr_map →
      ¬ Overlap ((fill_e820map rd base size stride tbl).state.e820_map i)
        ((fill_e820map rd base size stride tbl).state.e820_map j) := by
  rw [fill_e820map_eq_translate_spec rd base size stride tbl hcont] at hok ⊢
  unfold translate_spec at hok ⊢
  cases hf : feed ⟨tbl, 0⟩ ((descriptors rd base stride (size / stride)).flatMap emitted_regions)
    with
  | halted s1 =>
    rw [hf] at hok
    cases hok
  | done s1 =>
    have hb : ∀ r ∈ (descriptors rd base stride (size / stride)).flatMap emitted_regions,
        r.start + r.size < 2 ^ 64 := (flatMap_emitted_total _ hov).1
    have hp : ((descriptors rd base stride (size / stride)).flatMap emitted_regions).Pairwise
        (fun r1 r2 => ∀ b, ¬ (in_region r1 b ∧ in_region r2 b)) := by
      rw [List.pairwise_flatMap]
      constructor
      · intro d hd
        exact (emitted_regions_inside d (hov d hd)).2
      · refine List.Pairwise.imp_of_mem ?_ hdisj
        intro d1 d2 hd1 hd2 hno x hx y hy b hxy
        have h1 := (emitted_regions_inside d1 (hov d1 hd1)).1 x hx b hxy.1
        have h2 := (emitted_regions_inside d2 (hov d2 hd2)).1 y hy b hxy.2
        apply hno
        unfold in_input at h1 h2
        unfold InputOverlap
        omega
    have h0 : DisjointIn (fun _ => False) ⟨tbl, 0⟩ :=
      ⟨⟨Nat.zero_le _, fun i hi => absurd hi (Nat.not_lt_zero _)⟩,
        fun i hi => absurd hi (Nat.not_lt_zero _),
        fun i j _ hj => absurd hj (Nat.not_lt_zero _)⟩
    have h := feed_disjoint _ (fun _ => False) _ _ hb hp (fun _ _ _ _ hF => hF) h0 hf
    intro i j hij hj hov2
    simp only [Run.state] at hj hov2
    unfold Overlap at hov2
    apply h.2.2 i j hij hj (max (s1.e820_map i).addr (s1.e820_map j).addr)
    unfold in_entry
    omega

/-- On every path of `LoadLinux` the load region is what the first `memcpy` left. -/
theorem LoadLinux_load_region (BootArgs : MACH_BOOTARGS) (nr_tables : Nat)
    (config_tables : Nat → efi_config_table_t) (rd : Nat → efi_memory_desc_t)
    (bp_addr : Nat) (kernel_ptr : Nat → Nat) (kernel_len initrd_ptr initrd_len : Nat)
    (m : Machine) :
    (LoadLinux BootArgs nr_tables config_tables rd bp_addr kernel_ptr kernel_len initrd_ptr
      initrd_len m).machine.load_region
      = memcpy m.load_region 0 kernel_ptr ((load8 kernel_ptr 0x1F1 + 1) * 512)
          (real_kernel_len kernel_ptr kernel_len) := by
  unfold LoadLinux
  simp only []
  split_ifs with hf
  · rfl
  · cases AcpiGetRsdp nr_tables config_tables with
    | none => rfl
    | some rsdp =>
      simp only []
      split
      · rfl
      · rfl

theorem real_kernel_len_eq (kernel_ptr : Nat → Nat) (kernel_len : Nat)
    (hk : kernel_len < 2 ^ 32) (hlen : (load8 kernel_ptr 0x1F1 + 1) * 512 ≤ kernel_len) :
    real_kernel_len kernel_ptr kernel_len = kernel_len - (load8 kernel_ptr 0x1F1 + 1) * 512 := by
  unfold real_kernel_len
  have e : kernel_len + 2 ^ 32 - (load8 kernel_ptr 0x1F1 + 1) * 512
      = (kernel_len - (load8 kernel_ptr 0x1F1 + 1) * 512) + 2 ^ 32 := by omega
  rw [e, Nat.add_mod_right]
  exact Nat.mod_eq_of_lt (by omega)

theorem real_kernel_len_mod (kernel_ptr : Nat → Nat) (kernel_len : Nat) :
    (real_kernel_len kernel_ptr kernel_len : Int)
      = ((kernel_len : Int) - ((load8 kernel_ptr 0x1F1 : Int) + 1) * 512) % 2 ^ 32 := by
  unfold real_kernel_len
  have hb : load8 kernel_ptr 0x1F1 < 256 := Nat.mod_lt _ (by decide)
  generalize load8 kernel_ptr 0x1F1 = s at hb ⊢
  omega

/-- The load-flags byte of the parameter block when `LoadLinux` tests it is the byte the
header copy left at 0x211. -/
theorem loadflags_at_check (BootArgs : MACH_BOOTARGS) (kernel_ptr bp : Nat → Nat) :
    load8 (configure_setup_header BootArgs (copy_setup_header kernel_ptr bp)) off_loadflags
      = if 0x211 < load8 kernel_ptr 0x201 + 0x202 then load8 kernel_ptr 0x211 else 0 := by
  unfold load8 off_loadflags
  rw [configure_setup_header_frame _ _ _ (by decide) (by decide) (by decide),
    copy_setup_header_apply _ _ _ (by decide)]
  unfold load8
  by_cases h : 0x211 < kernel_ptr 0x201 % 256 + 0x202
  · rw [if_pos ⟨by decide, h⟩, if_pos h, Nat.mod_mod]
  · rw [if_neg (fun hc => h hc.2), if_neg h]

set_option maxRecDepth 20000 in
/-- The table `full_table` holds 128 entries, the last one the reserved page at 0x2FE000. -/
theorem full_table_last :
    (feed ⟨zero_table, 0⟩ regions_128).isHalted = false ∧ full_table.e820_nr_map = 128 ∧
      full_table.e820_map 127 = ⟨0x2FE000, 0x1000, E820_RESERVED⟩ := by
  refine ⟨by decide, by decide, by decide⟩

set_option maxRecDepth 20000 in
/-- At `full_table` a reserved page that starts where the last entry ends is refused. -/
theorem full_table_refuses_merge :
    (add_memory_region full_table 0x2FF000 0x1000 E820_RESERVED).isHalted = true ∧
      (add_memory_region full_table 0x2FF000 0x1000 E820_RESERVED).state.e820_map 127
        = ⟨0x2FE000, 0x1000, E820_RESERVED⟩ := by
  refine ⟨by decide, by decide⟩

theorem add_memory_region_avoids_hole (s : E820State) (r : MemRegion)
    (hr : RegionAvoidsHole r) (hs : AvoidsHole s) :
    AvoidsHole (add_memory_region s r.start r.size r.type).state := by
  unfold add_memory_region
  simp only [E820_MAX_ENTRIES_ZEROPAGE]
  split_ifs with h1 h2
  · exact hs
  · obtain ⟨hx, hend, hty⟩ := h2
    have hb := hs.2 (s.e820_nr_map - 1) (by omega)
    rw [Nat.mod_eq_of_lt hb.1] at hend
    have hsz : ((s.e820_map (s.e820_nr_map - 1)).size + r.size) % 2 ^ 64
        = (s.e820_map (s.e820_nr_map - 1)).size + r.size :=
      Nat.mod_eq_of_lt (by have := hr.1; omega)
    refine ⟨hs.1, ?_⟩
    intro i hi
    simp only [Run.state] at hi ⊢
    by_cases he : i = s.e820_nr_map - 1
    · rw [he, Function.update_same]
      dsimp only
      rw [hsz]
      constructor
      · have := hr.1
        omega
      · intro ht
        have h3 := hb.2 ht
        have h4 := hr.2 (hty ▸ ht)
        omega
    · rw [Function.update_noteq he]
      exact hs.2 i hi
  · have hlt : s.e820_nr_map < 128 := by
      have := hs.1
      omega
    have hm : (s.e820_nr_map + 1) % 2 ^ 32 = s.e820_nr_map + 1 := Nat.mod_eq_of_lt (by omega)
    refine ⟨by simp only [Run.state]; omega, ?_⟩
    intro i hi
    simp only [Run.state] at hi ⊢
    rw [hm] at hi
    by_cases he : i = s.e820_nr_map
    · rw [he, Function.update_same]
      exact hr
    · rw [Function.update_noteq he]
      exact hs.2 i (by omega)

theorem emitted_regions_avoid_hole (md : efi_memory_desc_t)
    (hov : md.phys_addr + md.num_pages * 4096 < 2 ^ 64) :
    ∀ r ∈ emitted_regions md, RegionAvoidsHole r := by
  intro r hr
  refine ⟨(emitted_regions_total md hov).1 r hr, ?_⟩
  have hsz : (md.num_pages <<< EFI_PAGE_SHIFT) % 2 ^ 64 = md.num_pages * 4096 := by
    rw [shift_pages]
    exact Nat.mod_eq_of_lt (by omega)
  have he : (md.phys_addr + md.num_pages * 4096) % 2 ^ 64
      = md.phys_addr + md.num_pages * 4096 := Nat.mod_eq_of_lt hov
  unfold emitted_regions at hr
  simp only [hsz, he] at hr
  obtain ⟨w, hw⟩ : ∃ w, w = md.phys_addr + md.num_pages * 4096 - 0x100000 := ⟨_, rfl⟩
  rw [← hw] at hr
  by_cases hram : is_ram_class md.type
  · simp only [if_pos hram] at hr
    by_cases hh : md.phys_addr < 0x100000 ∧ md.phys_addr + md.num_pages * 4096 > 0xA0000
    · simp only [if_pos hh] at hr
      rw [List.mem_append] at hr
      rcases hr with hr | hr
      · by_cases hlo : md.phys_addr < 0xA0000
        · simp only [if_pos hlo, List.mem_singleton] at hr
          subst hr
          intro _
          dsimp only
          omega
        · simp only [if_neg hlo, List.not_mem_nil] at hr
      · by_cases hhi : md.phys_addr + md.num_pages * 4096 ≤ 0x100000
        · simp only [if_pos hhi, List.not_mem_nil] at hr
        · simp only [if_neg hhi, List.mem_singleton] at hr
          subst hr
          intro _
          dsimp only
          omega
    · simp only [if_neg hh, List.mem_singleton] at hr
      subst hr
      intro _
      dsimp only
      omega
  · simp only [if_neg hram, List.mem_singleton] at hr
    subst hr
    intro ht
    exfalso
    dsimp only at ht
    unfold e820_type_of at ht
    simp only [E820_ACPI, E820_NVS, E820_RESERVED, E820_RAM] at ht
    split_ifs at ht <;> omega

theorem visited_mem (rd : Nat → efi_memory_desc_t) (stride : Nat) :
    ∀ (k p : Nat) (d : efi_memory_desc_t), d ∈ visited rd stride k p →
      ∃ i, i < k ∧ d = rd (p + i * stride) := by
  intro k
  induction k with
  | zero =>
    intro p d hd
    simp only [visited, List.not_mem_nil] at hd
  | succ k ih =>
    intro p d hd
    simp only [visited, List.mem_cons] at hd
    rcases hd with hd | hd
    · exact ⟨0, Nat.succ_pos k, by simp [hd]⟩
    · split_ifs at hd
      · obtain ⟨i, hi, hd1⟩ := ih p d hd
        exact ⟨i, by omega, hd1⟩
      · obtain ⟨i, hi, hd1⟩ := ih (p + stride) d hd
        refine ⟨i + 1, by omega, ?_⟩
        rw [hd1, Nat.succ_mul]
        congr 1
        omega
theorem load8_store8 (mem : Nat → Nat) (off v : Nat) :
    load8 (store8 mem off v) off = v % 256 := by
  unfold load8 store8
  rw [Function.update_same, Nat.mod_mod]

theorem load16_store16 (mem : Nat → Nat) (off v : Nat) :
    load16 (store16 mem off v) off = v % 65536 := by
  unfold load16 store16 load8 store8
  rw [Function.update_same, Function.update_noteq (by omega), Function.update_same]
  omega

theorem load32_store32 (mem : Nat → Nat) (off v : Nat) :
    load32 (store32 mem off v) off = v % 2 ^ 32 := by
  unfold load32 store32 load16 store16 load8 store8
  have e : off + 2 + 1 = off + 3 := rfl
  rw [e]
  rw [Function.update_noteq (by omega), Function.update_noteq (by omega),
    Function.update_noteq (by omega), Function.update_same]
  rw [Function.update_noteq (by omega), Function.update_noteq (by omega),
    Function.update_same]
  rw [Function.update_noteq (by omega), Function.update_same]
  rw [Function.update_same]
  omega

theorem load16_congr (m1 m2 : Nat → Nat) (off : Nat)
    (h : ∀ j, off ≤ j → j < off + 2 → m1 j = m2 j) : load16 m1 off = load16 m2 off := by
  unfold load16 load8
  rw [h off (by omega) (by omega), h (off + 1) (by omega) (by omega)]

theorem load32_congr (m1 m2 : Nat → Nat) (off : Nat)
    (h : ∀ j, off ≤ j → j < off + 4 → m1 j = m2 j) : load32 m1 off = load32 m2 off := by
  unfold load32
  rw [load16_congr m1 m2 off (fun j h1 h2 => h j h1 (by omega)),
    load16_congr m1 m2 (off + 2) (fun j h1 h2 => h j (by omega) (by omega))]

/-- When the load-flags check passes, the bytes of the final parameter block between
`efi_info` and `e820_table`, `e820_entries` apart, are those left by the header copy and
the stores into the header. -/
theorem LoadLinux_header_area (BootArgs : MACH_BOOTARGS) (nr_tables : Nat)
    (config_tables : Nat → efi_config_table_t) (rd : Nat → efi_memory_desc_t)
    (bp_addr : Nat) (kernel_ptr : Nat → Nat) (kernel_len initrd_ptr initrd_len : Nat)
    (m : Machine)
    (hcheck : ¬ load8 (configure_setup_header BootArgs
      (copy_setup_header kernel_ptr m.boot_params)) off_loadflags &&& 1 = 0)
    (j : Nat) (h1 : 0x1e9 ≤ j) (h2 : j < 0x2d0) :
    (LoadLinux BootArgs nr_tables config_tables rd bp_addr kernel_ptr kernel_len initrd_ptr
      initrd_len m).machine.boot_params j
      = setup_ramdisk initrd_ptr initrd_len (clear_early_messages
          (configure_setup_header BootArgs (copy_setup_header kernel_ptr m.boot_params))) j := by
  unfold LoadLinux
  simp only []
  rw [if_neg hcheck]
  cases AcpiGetRsdp nr_tables config_tables with
  | none =>
    simp only [Outcome.machine]
    rw [setup_video_frame _ _ _ (by omega)]
  | some rsdp =>
    simp only []
    split
    · simp only [Outcome.machine]
      rw [with_e820_table_frame _ _ _ (Or.inl h2), setup_efi_info_frame _ _ _ (by omega),
        store64_out _ _ _ _ (by simp only [off_acpi_rsdp_addr]; omega),
        setup_video_frame _ _ _ (by omega)]
    · simp only [Outcome.machine]
      rw [store8_ne _ _ _ _ (by simp only [off_e820_entries]; omega),
        with_e820_table_frame _ _ _ (Or.inl h2), setup_efi_info_frame _ _ _ (by omega),
        store64_out _ _ _ _ (by simp only [off_acpi_rsdp_addr]; omega),
        setup_video_frame _ _ _ (by omega)]

theorem testBit_and_0xDF (v : Nat) (hv : v < 256) :
    (v &&& 0xDF).testBit 5 = false ∧ ∀ i, i ≠ 5 → (v &&& 0xDF).testBit i = v.testBit i := by
  constructor
  · rw [Nat.testBit_and]
    have : Nat.testBit 0xDF 5 = false := by decide
    rw [this, Bool.and_false]
  · intro i hi
    rw [Nat.testBit_and]
    by_cases h8 : i < 8
    · have : Nat.testBit 0xDF i = true := by
        interval_cases i <;> first | (exact absurd rfl hi) | decide
      rw [this, Bool.and_true]
    · have : v.testBit i = false := by
        apply Nat.testBit_lt_two_pow
        calc v < 256 := hv
          _ = 2 ^ 8 := by norm_num
          _ ≤ 2 ^ i := Nat.pow_le_pow_right (by decide) (by omega)
      rw [this, Bool.false_and]

/-! ## The claims -/

/-- C1 (evaluation at the failing input). On the two-descriptor map
`map_low_then_reserved` the loop looks at the first descriptor twice and never at the
second: the table holds the piece `[0x90000, 0xA0000)` twice, where the translation of
the specification holds that piece once, followed by the reserved page. -/
theorem continue_repeats_descriptor :
    visited (map_of map_low_then_reserved 0x1000 40) 40 2 0x1000
      = [⟨EFI_CONVENTIONAL_MEMORY, 0x90000, 0x20⟩, ⟨EFI_CONVENTIONAL_MEMORY, 0x90000, 0x20⟩] ∧
    (fill_e820map (map_of map_low_then_reserved 0x1000 40) 0x1000 80 40 zero_table).state.entries
      = [⟨0x90000, 0x10000, E820_RAM⟩, ⟨0x90000, 0x10000, E820_RAM⟩] ∧
    (translate_spec (map_of map_low_then_reserved 0x1000 40) 0x1000 80 40 zero_table).state.entries
      = [⟨0x90000, 0x10000, E820_RAM⟩, ⟨0x100000, 0x1000, E820_RESERVED⟩] := by
  refine ⟨by decide, by decide, by decide⟩

/-- C2 (evaluation at the failing input). On `map_low_then_ram` no capacity error occurs
and the entry sizes sum to 0x2000, where the input sizes minus the bytes inside the hole
are 0x101000. -/
theorem size_sum_after_continue :
    (fill_e820map (map_of map_low_then_ram 0 40) 0 80 40 zero_table).isHalted = false ∧
    total_size (fill_e820map (map_of map_low_then_ram 0 40) 0 80 40 zero_table).state = 0x2000 ∧
    expected_total (descriptors (map_of map_low_then_ram 0 40) 0 40 (80 / 40)) = 0x101000 := by
  refine ⟨by decide, by decide, by decide⟩

/-- C3. In every table state that `fill_e820map` reaches no two consecutive entries are
mergeable (same type and, in 64-bit arithmetic, the first ending where the second
starts); the predicate holds of the empty table and every call of `add_memory_region`
preserves it. -/
theorem no_adjacent_mergeable_pair :
    (∀ (rd : Nat → efi_memory_desc_t) (base size stride : Nat) (tbl : Nat → boot_e820_entry),
      NoMergeablePair (fill_e820map rd base size stride tbl).state) ∧
    (∀ tbl : Nat → boot_e820_entry, NoMergeablePair ⟨tbl, 0⟩) ∧
    (∀ (s : E820State) (start size type : Nat),
      NoMergeablePair s → NoMergeablePair (add_memory_region s start size type).state) :=
  ⟨fill_e820map_no_mergeable, fun _ _ hi => absurd hi (Nat.not_lt_zero _),
    fun s start size type h => add_memory_region_no_mergeable s start size type h⟩

theorem no_adjacent_mergeable_pair_witness :
    NoMergeablePair ⟨zero_table, 0⟩ ∧
    NoMergeablePair (add_memory_region ⟨zero_table, 0⟩ 0x1000 0x1000 E820_RESERVED).state :=
  ⟨no_adjacent_mergeable_pair.2.1 zero_table,
    no_adjacent_mergeable_pair.2.2 ⟨zero_table, 0⟩ 0x1000 0x1000 E820_RESERVED
      (no_adjacent_mergeable_pair.2.1 zero_table)⟩

/-- C4. A usable-RAM-class descriptor that starts below 0xA0000 and ends above 0x100000
(no 64-bit overflow), alone in the map, yields exactly two usable-RAM entries:
`(start, 0xA0000 - start)` followed by `(0x100000, end - 0x100000)`. -/
theorem ram_across_hole_split_in_two (rd : Nat → efi_memory_desc_t)
    (base size stride : Nat) (tbl : Nat → boot_e820_entry)
    (hn : size / stride = 1) (hcls : is_ram_class (rd base).type)
    (hlo : (rd base).phys_addr < 0xA0000)
    (hhi : (rd base).phys_addr + (rd base).num_pages * 4096 > 0x100000)
    (hov : (rd base).phys_addr + (rd base).num_pages * 4096 < 2 ^ 64) :
    ∃ s, fill_e820map rd base size stride tbl = .done s ∧ s.e820_nr_map = 2 ∧
      s.entries = [⟨(rd base).phys_addr, 0xA0000 - (rd base).phys_addr, E820_RAM⟩,
        ⟨0x100000, (rd base).phys_addr + (rd base).num_pages * 4096 - 0x100000, E820_RAM⟩] := by
  rw [fill_e820map_single rd base size stride tbl hn]
  have hsz : ((rd base).num_pages <<< EFI_PAGE_SHIFT) % 2 ^ 64 = (rd base).num_pages * 4096 := by
    rw [shift_pages]
    exact Nat.mod_eq_of_lt (by omega)
  have hem : emitted_regions (rd base)
      = [⟨(rd base).phys_addr, 0xA0000 - (rd base).phys_addr, E820_RAM⟩,
        ⟨0x100000, (rd base).phys_addr + (rd base).num_pages * 4096 - 0x100000, E820_RAM⟩] := by
    unfold emitted_regions
    simp only [hsz, if_pos hcls]
    have he : ((rd base).phys_addr + (rd base).num_pages * 4096) % 2 ^ 64
        = (rd base).phys_addr + (rd base).num_pages * 4096 := Nat.mod_eq_of_lt hov
    rw [he, if_pos ⟨by omega, by omega⟩, if_pos hlo, if_neg (by omega)]
    rfl
  rw [hem, feed_two, add_memory_region_first]
  simp only []
  have hnm : ¬ (0 < 1 ∧ ((rd base).phys_addr + (0xA0000 - (rd base).phys_addr)) % 2 ^ 64
      = 0x100000 ∧ E820_RAM = E820_RAM) := by
    intro h
    have h2 := h.2.1
    rw [Nat.mod_eq_of_lt (by omega)] at h2
    omega
  have h2 : add_memory_region
      ⟨Function.update tbl 0 ⟨(rd base).phys_addr, 0xA0000 - (rd base).phys_addr, E820_RAM⟩, 1⟩
      0x100000 ((rd base).phys_addr + (rd base).num_pages * 4096 - 0x100000) E820_RAM
      = .done ⟨Function.update
          (Function.update tbl 0 ⟨(rd base).phys_addr, 0xA0000 - (rd base).phys_addr, E820_RAM⟩)
          1 ⟨0x100000, (rd base).phys_addr + (rd base).num_pages * 4096 - 0x100000, E820_RAM⟩,
        2⟩ := by
    unfold add_memory_region
    simp only [Function.update_same, Nat.sub_self, E820_MAX_ENTRIES_ZEROPAGE]
    have hnm2 : ¬ (0 < 1 ∧ ((rd base).phys_addr + (0xA0000 - (rd base).phys_addr)) % 2 ^ 64
        = 0x100000 ∧ True) := fun h => hnm ⟨h.1, h.2.1, rfl⟩
    rw [if_neg hnm2, if_neg (by decide)]
    rfl
  rw [h2]
  exact ⟨_, rfl, rfl, by simp [E820State.entries, List.range_succ]⟩

theorem ram_across_hole_split_in_two_witness :
    ∃ s, fill_e820map (map_of [⟨EFI_CONVENTIONAL_MEMORY, 0x80000, 0x180⟩] 0x2000 40) 0x2000 40 40
        zero_table = .done s ∧ s.e820_nr_map = 2 ∧
      s.entries = [⟨0x80000, 0x20000, E820_RAM⟩, ⟨0x100000, 0x100000, E820_RAM⟩] :=
  ram_across_hole_split_in_two (map_of [⟨EFI_CONVENTIONAL_MEMORY, 0x80000, 0x180⟩] 0x2000 40)
    0x2000 40 40 zero_table (by decide) (by decide) (by decide) (by decide) (by decide)

/-- C5. A usable-RAM-class descriptor that ends at or below 0xA0000 (no 64-bit overflow),
alone in the map, is emitted unchanged: the table holds exactly the one entry
`(phys_addr, num_pages * 4096, E820_RAM)`. -/
theorem ram_below_hole_emitted_unchanged (rd : Nat → efi_memory_desc_t)
    (base size stride : Nat) (tbl : Nat → boot_e820_entry)
    (hn : size / stride = 1) (hcls : is_ram_class (rd base).type)
    (hend : (rd base).phys_addr + (rd base).num_pages * 4096 ≤ 0xA0000) :
    ∃ s, fill_e820map rd base size stride tbl = .done s ∧ s.e820_nr_map = 1 ∧
      s.entries = [⟨(rd base).phys_addr, (rd base).num_pages * 4096, E820_RAM⟩] := by
  rw [fill_e820map_single rd base size stride tbl hn]
  have hsz : ((rd base).num_pages <<< EFI_PAGE_SHIFT) % 2 ^ 64 = (rd base).num_pages * 4096 := by
    rw [shift_pages]
    exact Nat.mod_eq_of_lt (by omega)
  have hem : emitted_regions (rd base)
      = [⟨(rd base).phys_addr, (rd base).num_pages * 4096, E820_RAM⟩] := by
    unfold emitted_regions
    simp only [hsz, if_pos hcls]
    have he : ((rd base).phys_addr + (rd base).num_pages * 4096) % 2 ^ 64
        = (rd base).phys_addr + (rd base).num_pages * 4096 := Nat.mod_eq_of_lt (by omega)
    rw [he, if_neg (by omega)]
  rw [hem, feed_one, add_memory_region_first]
  exact ⟨_, rfl, rfl, by simp [E820State.entries, List.range_succ]⟩

theorem ram_below_hole_emitted_unchanged_witness :
    ∃ s, fill_e820map (map_of [⟨EFI_CONVENTIONAL_MEMORY, 0x1000, 8⟩] 0x2000 40) 0x2000 40 40
        zero_table = .done s ∧ s.e820_nr_map = 1 ∧
      s.entries = [⟨0x1000, 0x8000, E820_RAM⟩] :=
  ram_below_hole_emitted_unchanged (map_of [⟨EFI_CONVENTIONAL_MEMORY, 0x1000, 8⟩] 0x2000 40)
    0x2000 40 40 zero_table (by decide) (by decide) (by decide)

/-- C6 (evaluation at the failing input). The translation of `map_hole_then_129_reserved`
needs 129 entries and, done as the specification describes, runs into the capacity error,
while `fill_e820map` completes with an empty table: the loop never leaves the first
descriptor. -/
theorem capacity_error_missed_after_continue :
    entries_needed (map_of map_hole_then_129_reserved 0 40) 0 5200 40 = 129 ∧
    (translate_spec (map_of map_hole_then_129_reserved 0 40) 0 5200 40 zero_table).isHalted
      = true ∧
    (fill_e820map (map_of map_hole_then_129_reserved 0 40) 0 5200 40 zero_table).isHalted
      = false ∧
    (fill_e820map (map_of map_hole_then_129_reserved 0 40) 0 5200 40 zero_table).state.e820_nr_map
      = 0 := by
  refine ⟨entries_needed_hole_then_129_reserved, by decide, by decide, by decide⟩

/-- C7. A descriptor outside the usable-RAM class, alone in the map, yields exactly one
entry with `addr = phys_addr`, `size = num_pages * 4096 mod 2^64` and type ACPI for
ACPI-reclaim, NVS for ACPI-NVS, reserved for the seven listed reserved classes and for
every other value; and every entry of every table built by `fill_e820map` has a type
among RAM, reserved, ACPI and NVS. -/
theorem non_ram_descriptor_types :
    (∀ (rd : Nat → efi_memory_desc_t) (base size stride : Nat) (tbl : Nat → boot_e820_entry),
      size / stride = 1 → ¬ is_ram_class (rd base).type →
      ∃ s ty, fill_e820map rd base size stride tbl = .done s ∧ s.e820_nr_map = 1 ∧
        s.entries = [⟨(rd base).phys_addr, ((rd base).num_pages * 4096) % 2 ^ 64, ty⟩] ∧
        ((rd base).type = EFI_ACPI_RECLAIM_MEMORY → ty = E820_ACPI) ∧
        ((rd base).type = EFI_ACPI_MEMORY_NVS → ty = E820_NVS) ∧
        ((rd base).type = EFI_RUNTIME_SERVICES_CODE ∨ (rd base).type = EFI_RUNTIME_SERVICES_DATA
          ∨ (rd base).type = EFI_RESERVED_TYPE ∨ (rd base).type = EFI_MEMORY_MAPPED_IO
          ∨ (rd base).type = EFI_MEMORY_MAPPED_IO_PORT_SPACE
          ∨ (rd base).type = EFI_UNUSABLE_MEMORY ∨ (rd base).type = EFI_PAL_CODE
          → ty = E820_RESERVED) ∧
        ((rd base).type ≠ EFI_ACPI_RECLAIM_MEMORY → (rd base).type ≠ EFI_ACPI_MEMORY_NVS
          → ty = E820_RESERVED)) ∧
    (∀ (rd : Nat → efi_memory_desc_t) (base size stride : Nat) (tbl : Nat → boot_e820_entry)
      (i : Nat), i < (fill_e820map rd base size stride tbl).state.e820_nr_map →
      ((fill_e820map rd base size stride tbl).state.e820_map i).type = 1
        ∨ ((fill_e820map rd base size stride tbl).state.e820_map i).type = 2
        ∨ ((fill_e820map rd base size stride tbl).state.e820_map i).type = 3
        ∨ ((fill_e820map rd base size stride tbl).state.e820_map i).type = 4) := by
  constructor
  · intro rd base size stride tbl hn hcls
    rw [fill_e820map_single rd base size stride tbl hn, emitted_regions_non_ram _ hcls,
      feed_one, add_memory_region_first]
    refine ⟨_, e820_type_of (rd base).type, rfl, rfl, ?_, ?_, ?_, ?_, ?_⟩
    · simp [E820State.entries, List.range_succ]
    · intro h
      simp [e820_type_of, h]
    · intro h
      simp [e820_type_of, h, EFI_ACPI_MEMORY_NVS, EFI_ACPI_RECLAIM_MEMORY]
    · intro h
      have h9 : (rd base).type ≠ EFI_ACPI_RECLAIM_MEMORY := by
        simp only [EFI_RUNTIME_SERVICES_CODE, EFI_RUNTIME_SERVICES_DATA, EFI_RESERVED_TYPE,
          EFI_MEMORY_MAPPED_IO, EFI_MEMORY_MAPPED_IO_PORT_SPACE, EFI_UNUSABLE_MEMORY,
          EFI_PAL_CODE] at h
        simp only [EFI_ACPI_RECLAIM_MEMORY]
        omega
      have h10 : (rd base).type ≠ EFI_ACPI_MEMORY_NVS := by
        simp only [EFI_RUNTIME_SERVICES_CODE, EFI_RUNTIME_SERVICES_DATA, EFI_RESERVED_TYPE,
          EFI_MEMORY_MAPPED_IO, EFI_MEMORY_MAPPED_IO_PORT_SPACE, EFI_UNUSABLE_MEMORY,
          EFI_PAL_CODE] at h
        simp only [EFI_ACPI_MEMORY_NVS]
        omega
      simp [e820_type_of, h9, h10]
    · intro h9 h10
      simp [e820_type_of, h9, h10]
  · intro rd base size stride tbl
    have h : TypesLegal (fill_e820map rd base size stride tbl).state := by
      rw [fill_e820map_eq_feed]
      apply feed_preserves TypesLegal
        (fun r => r.type = E820_RAM ∨ r.type = E820_RESERVED ∨ r.type = E820_ACPI
          ∨ r.type = E820_NVS)
      · intro s r hr hs
        exact add_memory_region_types s r hr hs
      · intro r hr
        rw [List.mem_flatMap] at hr
        obtain ⟨md, _, hmd⟩ := hr
        exact emitted_regions_types md r hmd
      · intro i hi
        exact absurd hi (Nat.not_lt_zero _)
    exact h

theorem non_ram_descriptor_types_witness :
    ∃ s ty, fill_e820map (map_of [⟨EFI_ACPI_RECLAIM_MEMORY, 0x7F000000, 0x10⟩] 0x2000 48)
        0x2000 48 48 zero_table = .done s ∧ s.e820_nr_map = 1 ∧
      s.entries = [⟨0x7F000000, 0x10000, ty⟩] ∧ ty = E820_ACPI :=
  match non_ram_descriptor_types.1
      (map_of [⟨EFI_ACPI_RECLAIM_MEMORY, 0x7F000000, 0x10⟩] 0x2000 48) 0x2000 48 48 zero_table
      (by decide) (by decide) with
  | ⟨s, ty, h1, h2, h3, h4, _⟩ => ⟨s, ty, h1, h2, h3, h4 rfl⟩

/-- C8 (evaluation at the failing input). The two input regions of `map_low_then_high` do
not overlap and no capacity error occurs, yet the first two entries of the table are both
`[0x98000, 0xA0000)` and overlap. -/
theorem entries_overlap_after_continue :
    ¬ InputOverlap ⟨EFI_LOADER_CODE, 0x98000, 0x10⟩ ⟨EFI_CONVENTIONAL_MEMORY, 0x200000, 0x10⟩ ∧
    (fill_e820map (map_of map_low_then_high 0 40) 0 80 40 zero_table).isHalted = false ∧
    (fill_e820map (map_of map_low_then_high 0 40) 0 80 40 zero_table).state.entries
      = [⟨0x98000, 0x8000, E820_RAM⟩, ⟨0x98000, 0x8000, E820_RAM⟩] ∧
    Overlap ((fill_e820map (map_of map_low_then_high 0 40) 0 80 40 zero_table).state.e820_map 0)
      ((fill_e820map (map_of map_low_then_high 0 40) 0 80 40 zero_table).state.e820_map 1) := by
  refine ⟨by decide, by decide, by decide, by decide⟩

/-- C9. A kernel image whose four bytes at offset 0x202 are not 'H','d','r','S' makes
`WrapperInit` halt in `fail()` with the machine exactly as it found it: `LoadLinux` is
not entered, so no step is recorded and no byte of the load region, of the parameter
block or of the descriptor-table region is written.  The message is "This is not a Linux
kernel!" for every image of non-zero length ("Linux kernel not found!" when `kernel_len`
is zero). -/
theorem unvalidated_image_never_relocated (BootArgs : MACH_BOOTARGS) (nr_tables : Nat)
    (config_tables : Nat → efi_config_table_t) (rd : Nat → efi_memory_desc_t)
    (bp_addr : Nat) (kernel_ptr : Nat → Nat) (kernel_len initrd_ptr initrd_len : Nat)
    (m : Machine)
    (hsig : ¬ (load8 kernel_ptr 0x202 = 0x48 ∧ load8 kernel_ptr 0x203 = 0x64
      ∧ load8 kernel_ptr 0x204 = 0x72 ∧ load8 kernel_ptr 0x205 = 0x53)) :
    ∃ e, WrapperInit BootArgs nr_tables config_tables rd bp_addr kernel_ptr kernel_len
        initrd_ptr initrd_len m = .fatal e m
      ∧ (kernel_len ≠ 0 → e = .not_a_linux_kernel)
      ∧ (kernel_len = 0 → e = .kernel_not_found) := by
  have hne : load32 kernel_ptr 0x202 ≠ 0x53726448 := by
    intro h
    exact hsig ((load32_eq_magic kernel_ptr 0x202).1 h)
  unfold WrapperInit
  by_cases hk : kernel_len = 0
  · rw [if_pos hk]
    exact ⟨_, rfl, fun h => absurd hk h, fun _ => rfl⟩
  · rw [if_neg hk, if_pos hne]
    exact ⟨_, rfl, fun _ => rfl, fun h => absurd h hk⟩

theorem unvalidated_image_never_relocated_witness :
    ∃ e, WrapperInit sample_bootargs 1 sample_config_tables
        (map_of [⟨EFI_CONVENTIONAL_MEMORY, 0x100000, 0x100⟩] 0x5000 40) 0x7000
        (image_of [(0x1F1, 1), (0x201, 0x6A), (0x211, 0x01)]) 0x800 0 0 zero_machine
        = .fatal e zero_machine
      ∧ (0x800 ≠ 0 → e = .not_a_linux_kernel) ∧ (0x800 = 0 → e = .kernel_not_found) :=
  unvalidated_image_never_relocated sample_bootargs 1 sample_config_tables
    (map_of [⟨EFI_CONVENTIONAL_MEMORY, 0x100000, 0x100⟩] 0x5000 40) 0x7000
    (image_of [(0x1F1, 1), (0x201, 0x6A), (0x211, 0x01)]) 0x800 0 0 zero_machine (by decide)

/-- C10 (counterexample). The image `image_with_ramdisk_fields` passes validation (magic
present, load-flags bit 0 set) and no ramdisk is supplied; the build reaches the handoff
with `hdr.ramdisk_image = 0x12345678` and `hdr.ramdisk_size = 0x10`, the values the image
carries at its own offsets 0x218 and 0x21C. -/
theorem absent_ramdisk_fields_not_zero :
    load32 image_with_ramdisk_fields 0x202 = 0x53726448 ∧
    load8 image_with_ramdisk_fields 0x211 % 2 = 1 ∧
    (WrapperInit sample_bootargs 1 sample_config_tables
      (map_of [⟨EFI_CONVENTIONAL_MEMORY, 0x100000, 0x100⟩] 0x5000 40) 0x7000
      image_with_ramdisk_fields 0x800 0 0 zero_machine).isFatal = false ∧
    load32 (WrapperInit sample_bootargs 1 sample_config_tables
      (map_of [⟨EFI_CONVENTIONAL_MEMORY, 0x100000, 0x100⟩] 0x5000 40) 0x7000
      image_with_ramdisk_fields 0x800 0 0 zero_machine).machine.boot_params off_ramdisk_image
        = 0x12345678 ∧
    load32 (WrapperInit sample_bootargs 1 sample_config_tables
      (map_of [⟨EFI_CONVENTIONAL_MEMORY, 0x100000, 0x100⟩] 0x5000 40) 0x7000
      image_with_ramdisk_fields 0x800 0 0 zero_machine).machine.boot_params off_ramdisk_size
        = 0x10 := by
  refine ⟨by decide, by decide, by decide, by decide, by decide⟩

/-- C10 (amended). For a kernel image of 32-bit length that is at least as long as its
setup sectors (`(s + 1) * 512 ≤ kernel_len`, `s` = image byte 0x1F1) and passes validation
(non-empty, magic present, load-flags bit 0 set in the copied header), and no ramdisk
(`initrd_len = 0`), every byte
of `hdr.ramdisk_image` and `hdr.ramdisk_size` in the final parameter block is the image's
byte at the same offset when that offset lies below the encoded header end (image byte
0x201 plus 0x202), and zero otherwise; so both fields are zero when the image carries
zeros at 0x218-0x21F.  The build halts only for a missing ACPI table or for the capacity
error.  The relocation before it copies `kernel_len - (s + 1) * 512` bytes. -/
theorem absent_ramdisk_fields_as_copied (BootArgs : MACH_BOOTARGS) (nr_tables : Nat)
    (config_tables : Nat → efi_config_table_t) (rd : Nat → efi_memory_desc_t)
    (bp_addr : Nat) (kernel_ptr : Nat → Nat) (kernel_len initrd_ptr initrd_len : Nat)
    (m : Machine)
    (hk : kernel_len ≠ 0) (hk32 : kernel_len < 2 ^ 32)
    (hlen : (load8 kernel_ptr 0x1F1 + 1) * 512 ≤ kernel_len)
    (hmagic : load32 kernel_ptr 0x202 = 0x53726448)
    (hreach : 0x211 < load8 kernel_ptr 0x201 + 0x202)
    (hflag : load8 kernel_ptr 0x211 % 2 = 1) (hno : initrd_len = 0) :
    (∀ k, k < 8 →
      (WrapperInit BootArgs nr_tables config_tables rd bp_addr kernel_ptr kernel_len
        initrd_ptr initrd_len m).machine.boot_params (0x218 + k)
        = if 0x218 + k < load8 kernel_ptr 0x201 + 0x202 then load8 kernel_ptr (0x218 + k)
          else 0) ∧
    ((∀ k, k < 8 → load8 kernel_ptr (0x218 + k) = 0) →
      load32 (WrapperInit BootArgs nr_tables config_tables rd bp_addr kernel_ptr kernel_len
        initrd_ptr initrd_len m).machine.boot_params off_ramdisk_image = 0 ∧
      load32 (WrapperInit BootArgs nr_tables config_tables rd bp_addr kernel_ptr kernel_len
        initrd_ptr initrd_len m).machine.boot_params off_ramdisk_size = 0) ∧
    (∀ e m1, WrapperInit BootArgs nr_tables config_tables rd bp_addr kernel_ptr kernel_len
        initrd_ptr initrd_len m = .fatal e m1 → e = .no_acpi_table ∨ e = .too_many_entries) ∧
    real_kernel_len kernel_ptr kernel_len = kernel_len - (load8 kernel_ptr 0x1F1 + 1) * 512 := by
  have hW : WrapperInit BootArgs nr_tables config_tables rd bp_addr kernel_ptr kernel_len
      initrd_ptr initrd_len m
      = LoadLinux BootArgs nr_tables config_tables rd bp_addr kernel_ptr kernel_len
        initrd_ptr initrd_len m := by
    unfold WrapperInit
    rw [if_neg hk, if_neg (by simp [hmagic])]
  rw [hW]
  have hbytes : ∀ k, k < 8 →
      (LoadLinux BootArgs nr_tables config_tables rd bp_addr kernel_ptr kernel_len
        initrd_ptr initrd_len m).machine.boot_params (0x218 + k)
        = if 0x218 + k < load8 kernel_ptr 0x201 + 0x202 then load8 kernel_ptr (0x218 + k)
          else 0 := by
    intro k hkk
    rw [LoadLinux_header_bytes _ _ _ _ _ _ _ _ _ _ _ (by omega) (by omega) (by omega)
      (by omega) (Or.inl hno), copy_setup_header_apply _ _ _ (by omega)]
    by_cases hlt : 0x218 + k < load8 kernel_ptr 0x201 + 0x202
    · rw [if_pos hlt, if_pos ⟨by omega, hlt⟩]
    · rw [if_neg hlt, if_neg (fun h => hlt h.2)]
  refine ⟨hbytes, ?_, ?_, real_kernel_len_eq kernel_ptr kernel_len hk32 hlen⟩
  · intro hz
    have hb : ∀ k, k < 8 →
        load8 (LoadLinux BootArgs nr_tables config_tables rd bp_addr kernel_ptr kernel_len
          initrd_ptr initrd_len m).machine.boot_params (0x218 + k) = 0 := by
      intro k hkk
      unfold load8
      rw [hbytes k hkk]
      split_ifs
      · rw [hz k hkk]
      · rfl
    have b0 := hb 0 (by omega)
    have b1 := hb 1 (by omega)
    have b2 := hb 2 (by omega)
    have b3 := hb 3 (by omega)
    have b4 := hb 4 (by omega)
    have b5 := hb 5 (by omega)
    have b6 := hb 6 (by omega)
    have b7 := hb 7 (by omega)
    simp only [off_ramdisk_image, off_ramdisk_size, load32, load16]
    simp only [Nat.add_zero] at b0
    constructor
    · rw [b0, b1, b2, b3]
    · rw [b4, b5, b6, b7]
  · intro e m1 hf
    rcases LoadLinux_fatal_cases _ _ _ _ _ _ _ _ _ _ e m1 hf with h | h | h
    · exfalso
      have h2 := h.2
      unfold load8 at h2 hflag hreach
      rw [copy_setup_header_apply _ _ _ (by decide)] at h2
      unfold load8 at h2
      rw [if_pos ⟨by decide, hreach⟩, Nat.mod_mod] at h2
      omega
    · exact Or.inl h
    · exact Or.inr h

theorem absent_ramdisk_fields_as_copied_witness :
    load32 (WrapperInit sample_bootargs 1 sample_config_tables
      (map_of [⟨EFI_CONVENTIONAL_MEMORY, 0x100000, 0x100⟩] 0x5000 40) 0x7000
      image_plain 0x800 0 0 zero_machine).machine.boot_params off_ramdisk_image = 0 ∧
    load32 (WrapperInit sample_bootargs 1 sample_config_tables
      (map_of [⟨EFI_CONVENTIONAL_MEMORY, 0x100000, 0x100⟩] 0x5000 40) 0x7000
      image_plain 0x800 0 0 zero_machine).machine.boot_params off_ramdisk_size = 0 :=
  (absent_ramdisk_fields_as_copied sample_bootargs 1 sample_config_tables
    (map_of [⟨EFI_CONVENTIONAL_MEMORY, 0x100000, 0x100⟩] 0x5000 40) 0x7000
    image_plain 0x800 0 0 zero_machine (by decide) (by decide) (by decide) (by decide)
    (by decide) (by decide) rfl).2.1 (by decide)

/-- C11. For a kernel image of 32-bit length `kernel_len` with setup-sector count
`s` = image byte 0x1F1 and `kernel_len ≥ (s + 1) * 512`, `LoadLinux` computes the payload
length `kernel_len - (s + 1) * 512` and the relocation writes exactly that many bytes:
byte `j` of the load region (physical address `0x00100000 + j`) is image byte
`(s + 1) * 512 + j` for every `j` below the payload length, and is what it was before from
the payload length on.  Without the length precondition the computed length is
`kernel_len - (s + 1) * 512` modulo 2^32. -/
theorem payload_relocated (BootArgs : MACH_BOOTARGS) (nr_tables : Nat)
    (config_tables : Nat → efi_config_table_t) (rd : Nat → efi_memory_desc_t)
    (bp_addr : Nat) (kernel_ptr : Nat → Nat) (kernel_len initrd_ptr initrd_len : Nat)
    (m : Machine) (hk : kernel_len < 2 ^ 32)
    (hlen : (load8 kernel_ptr 0x1F1 + 1) * 512 ≤ kernel_len) :
    relocated_kernel_start = 0x00100000 ∧
    real_kernel_len kernel_ptr kernel_len = kernel_len - (load8 kernel_ptr 0x1F1 + 1) * 512 ∧
    (∀ j, j < kernel_len - (load8 kernel_ptr 0x1F1 + 1) * 512 →
      (LoadLinux BootArgs nr_tables config_tables rd bp_addr kernel_ptr kernel_len initrd_ptr
        initrd_len m).machine.load_region j
        = load8 kernel_ptr ((load8 kernel_ptr 0x1F1 + 1) * 512 + j)) ∧
    (∀ j, kernel_len - (load8 kernel_ptr 0x1F1 + 1) * 512 ≤ j →
      (LoadLinux BootArgs nr_tables config_tables rd bp_addr kernel_ptr kernel_len initrd_ptr
        initrd_len m).machine.load_region j = m.load_region j) ∧
    (∀ n : Nat, (real_kernel_len kernel_ptr n : Int)
      = ((n : Int) - ((load8 kernel_ptr 0x1F1 : Int) + 1) * 512) % 2 ^ 32) := by
  have hr := real_kernel_len_eq kernel_ptr kernel_len hk hlen
  refine ⟨rfl, hr, ?_, ?_, fun n => real_kernel_len_mod kernel_ptr n⟩
  · intro j hj
    rw [LoadLinux_load_region, hr]
    unfold memcpy
    rw [if_pos ⟨Nat.zero_le _, by omega⟩, Nat.sub_zero]
  · intro j hj
    rw [LoadLinux_load_region, hr]
    unfold memcpy
    rw [if_neg (by omega)]

theorem payload_relocated_witness :
    real_kernel_len image_with_payload 0x800 = 0x400 ∧
    (LoadLinux sample_bootargs 1 sample_config_tables
      (map_of [⟨EFI_CONVENTIONAL_MEMORY, 0x100000, 0x100⟩] 0x5000 40) 0x7000
      image_with_payload 0x800 0 0 zero_machine).machine.load_region 0x3FF
        = 0x90 :=
  ⟨(payload_relocated sample_bootargs 1 sample_config_tables
      (map_of [⟨EFI_CONVENTIONAL_MEMORY, 0x100000, 0x100⟩] 0x5000 40) 0x7000
      image_with_payload 0x800 0 0 zero_machine (by decide) (by decide)).2.1,
    (payload_relocated sample_bootargs 1 sample_config_tables
      (map_of [⟨EFI_CONVENTIONAL_MEMORY, 0x100000, 0x100⟩] 0x5000 40) 0x7000
      image_with_payload 0x800 0 0 zero_machine (by decide) (by decide)).2.2.1 0x3FF (by decide)⟩

/-- C12. For a kernel image of 32-bit length that is at least as long as its setup
sectors (`(s + 1) * 512 ≤ kernel_len`, `s` = image byte 0x1F1) and passes the load-flags
check (the encoded header end reaches offset 0x211 and bit 0 of the image's load-flags is
set), with a ramdisk or without, the final parameter block holds, on every path of
`LoadLinux`:
`cmd_line_ptr` = the address of the command line, `vid_mode` = 0xFFFF,
`type_of_loader` = 0xFF, `loadflags` = the image's load-flags with bit 5 cleared and every
other bit as it was, `ramdisk_image` / `ramdisk_size` = the ramdisk pointer and length
when `initrd_len ≠ 0`; and every other byte from 0x1F1 up to `e820_table` (the whole of
`struct setup_header` lies there) is the image's byte at the same offset below the
encoded header end (image byte 0x201 plus 0x202) and zero from there on.  The relocation
before it copies `kernel_len - (s + 1) * 512` bytes. -/
theorem setup_header_as_stored (BootArgs : MACH_BOOTARGS) (nr_tables : Nat)
    (config_tables : Nat → efi_config_table_t) (rd : Nat → efi_memory_desc_t)
    (bp_addr : Nat) (kernel_ptr : Nat → Nat) (kernel_len initrd_ptr initrd_len : Nat)
    (m : Machine)
    (hk32 : kernel_len < 2 ^ 32)
    (hlen : (load8 kernel_ptr 0x1F1 + 1) * 512 ≤ kernel_len)
    (hreach : 0x211 < load8 kernel_ptr 0x201 + 0x202)
    (hflag : load8 kernel_ptr 0x211 % 2 = 1) :
    load32 (LoadLinux BootArgs nr_tables config_tables rd bp_addr kernel_ptr kernel_len
      initrd_ptr initrd_len m).machine.boot_params off_cmd_line_ptr
        = BootArgs.CmdLine % 2 ^ 32 ∧
    load16 (LoadLinux BootArgs nr_tables config_tables rd bp_addr kernel_ptr kernel_len
      initrd_ptr initrd_len m).machine.boot_params off_vid_mode = 0xFFFF ∧
    load8 (LoadLinux BootArgs nr_tables config_tables rd bp_addr kernel_ptr kernel_len
      initrd_ptr initrd_len m).machine.boot_params off_type_of_loader = 0xFF ∧
    load8 (LoadLinux BootArgs nr_tables config_tables rd bp_addr kernel_ptr kernel_len
      initrd_ptr initrd_len m).machine.boot_params off_loadflags
        = load8 kernel_ptr 0x211 &&& 0xDF ∧
    (load8 (LoadLinux BootArgs nr_tables config_tables rd bp_addr kernel_ptr kernel_len
      initrd_ptr initrd_len m).machine.boot_params off_loadflags).testBit 5 = false ∧
    (∀ i, i ≠ 5 →
      (load8 (LoadLinux BootArgs nr_tables config_tables rd bp_addr kernel_ptr kernel_len
        initrd_ptr initrd_len m).machine.boot_params off_loadflags).testBit i
        = (load8 kernel_ptr 0x211).testBit i) ∧
    (initrd_len ≠ 0 →
      load32 (LoadLinux BootArgs nr_tables config_tables rd bp_addr kernel_ptr kernel_len
        initrd_ptr initrd_len m).machine.boot_params off_ramdisk_image
          = initrd_ptr % 2 ^ 32 ∧
      load32 (LoadLinux BootArgs nr_tables config_tables rd bp_addr kernel_ptr kernel_len
        initrd_ptr initrd_len m).machine.boot_params off_ramdisk_size
          = initrd_len % 2 ^ 32) ∧
    (∀ j, 0x1f1 ≤ j → j < 0x2d0 → j ≠ 0x1fa → j ≠ 0x1fb → j ≠ 0x210 → j ≠ 0x211 →
      (j < 0x228 ∨ 0x22c ≤ j) → (initrd_len = 0 ∨ j < 0x218 ∨ 0x220 ≤ j) →
      (LoadLinux BootArgs nr_tables config_tables rd bp_addr kernel_ptr kernel_len
        initrd_ptr initrd_len m).machine.boot_params j
        = if j < load8 kernel_ptr 0x201 + 0x202 then load8 kernel_ptr j else 0) ∧
    real_kernel_len kernel_ptr kernel_len = kernel_len - (load8 kernel_ptr 0x1F1 + 1) * 512 := by
  have hlf := loadflags_at_check BootArgs kernel_ptr m.boot_params
  rw [if_pos hreach] at hlf
  have hcheck : ¬ load8 (configure_setup_header BootArgs
      (copy_setup_header kernel_ptr m.boot_params)) off_loadflags &&& 1 = 0 := by
    rw [Nat.and_one_is_mod, hlf]
    omega
  have harea := LoadLinux_header_area BootArgs nr_tables config_tables rd bp_addr kernel_ptr
    kernel_len initrd_ptr initrd_len m hcheck
  have hb : load8 kernel_ptr 0x211 < 256 := Nat.mod_lt _ (by decide)
  have hflags : load8 (LoadLinux BootArgs nr_tables config_tables rd bp_addr kernel_ptr
      kernel_len initrd_ptr initrd_len m).machine.boot_params off_loadflags
      = load8 kernel_ptr 0x211 &&& 0xDF := by
    unfold load8 off_loadflags
    rw [harea 0x211 (by decide) (by decide),
      setup_ramdisk_frame _ _ _ _ (Or.inr (Or.inl (by decide)))]
    have h := load8_store8 (configure_setup_header BootArgs
      (copy_setup_header kernel_ptr m.boot_params)) off_loadflags
      (load8 (configure_setup_header BootArgs
        (copy_setup_header kernel_ptr m.boot_params)) off_loadflags &&& 0xDF)
    unfold load8 off_loadflags at h hlf
    unfold clear_early_messages load8 off_loadflags
    rw [h, hlf]
    apply Nat.mod_eq_of_lt
    have : kernel_ptr 0x211 % 256 &&& 0xDF ≤ 0xDF := Nat.and_le_right
    omega
  have hbits := testBit_and_0xDF (load8 kernel_ptr 0x211) hb
  refine ⟨?_, ?_, ?_, hflags, ?_, ?_, ?_, ?_,
    real_kernel_len_eq kernel_ptr kernel_len hk32 hlen⟩
  · rw [load32_congr _ (store32 (copy_setup_header kernel_ptr m.boot_params) off_cmd_line_ptr
      BootArgs.CmdLine) off_cmd_line_ptr, load32_store32]
    intro j h1 h2
    unfold off_cmd_line_ptr at h1 h2 ⊢
    rw [harea j (by omega) (by omega),
      setup_ramdisk_frame _ _ _ _ (Or.inr (Or.inr (by omega))),
      clear_early_messages_frame _ _ (by omega)]
    unfold configure_setup_header
    simp only [off_cmd_line_ptr, off_vid_mode, off_type_of_loader]
    rw [store8_ne _ _ _ _ (by omega), store16_out _ _ _ _ (by omega)]
  · rw [load16_congr _ (store16 (store32 (copy_setup_header kernel_ptr m.boot_params)
      off_cmd_line_ptr BootArgs.CmdLine) off_vid_mode 0xffff) off_vid_mode, load16_store16]
    intro j h1 h2
    unfold off_vid_mode at h1 h2 ⊢
    rw [harea j (by omega) (by omega),
      setup_ramdisk_frame _ _ _ _ (Or.inr (Or.inl (by omega))),
      clear_early_messages_frame _ _ (by omega)]
    unfold configure_setup_header
    simp only [off_cmd_line_ptr, off_vid_mode, off_type_of_loader]
    rw [store8_ne _ _ _ _ (by omega)]
  · have h := load8_store8 (store16 (store32 (copy_setup_header kernel_ptr m.boot_params)
      off_cmd_line_ptr BootArgs.CmdLine) off_vid_mode 0xffff) off_type_of_loader 0xff
    unfold load8 off_type_of_loader at h ⊢
    rw [harea 0x210 (by decide) (by decide),
      setup_ramdisk_frame _ _ _ _ (Or.inr (Or.inl (by decide))),
      clear_early_messages_frame _ _ (by decide)]
    unfold configure_setup_header
    simp only [off_type_of_loader]
    exact h
  · rw [hflags]
    exact hbits.1
  · intro i hi
    rw [hflags]
    exact hbits.2 i hi
  · intro hlen
    have hst : ∀ j, setup_ramdisk initrd_ptr initrd_len (clear_early_messages
        (configure_setup_header BootArgs (copy_setup_header kernel_ptr m.boot_params))) j
        = store32 (store32 (clear_early_messages
            (configure_setup_header BootArgs (copy_setup_header kernel_ptr m.boot_params)))
            off_ramdisk_image initrd_ptr) off_ramdisk_size initrd_len j := by
      intro j
      unfold setup_ramdisk
      rw [if_pos hlen]
    constructor
    · rw [load32_congr _ (store32 (clear_early_messages
          (configure_setup_header BootArgs (copy_setup_header kernel_ptr m.boot_params)))
          off_ramdisk_image initrd_ptr) off_ramdisk_image, load32_store32]
      intro j h1 h2
      unfold off_ramdisk_image at h1 h2
      rw [harea j (by omega) (by omega), hst j]
      rw [store32_out _ _ _ _ (by simp only [off_ramdisk_size]; omega)]
    · rw [load32_congr _ (store32 (store32 (clear_early_messages
          (configure_setup_header BootArgs (copy_setup_header kernel_ptr m.boot_params)))
          off_ramdisk_image initrd_ptr) off_ramdisk_size initrd_len) off_ramdisk_size,
        load32_store32]
      intro j h1 h2
      unfold off_ramdisk_size at h1 h2
      rw [harea j (by omega) (by omega), hst j]
  · intro j h1 h2 h3 h4 h5 h6 h7 h8
    rw [LoadLinux_header_bytes _ _ _ _ _ _ _ _ _ _ _ h1 h2 ⟨h3, h4, h5, h6⟩ h7 h8,
      copy_setup_header_apply _ _ _ (by omega)]
    by_cases hlt : j < load8 kernel_ptr 0x201 + 0x202
    · rw [if_pos hlt, if_pos ⟨h1, hlt⟩]
    · rw [if_neg hlt, if_neg (fun h => hlt h.2)]

theorem setup_header_as_stored_witness :
    load16 (LoadLinux sample_bootargs 1 sample_config_tables
      (map_of [⟨EFI_CONVENTIONAL_MEMORY, 0x100000, 0x100⟩] 0x5000 40) 0x7000
      image_with_ramdisk_fields 0x800 0x2000000 0x1000 zero_machine).machine.boot_params
        off_vid_mode = 0xFFFF ∧
    load32 (LoadLinux sample_bootargs 1 sample_config_tables
      (map_of [⟨EFI_CONVENTIONAL_MEMORY, 0x100000, 0x100⟩] 0x5000 40) 0x7000
      image_with_ramdisk_fields 0x800 0x2000000 0x1000 zero_machine).machine.boot_params
        off_ramdisk_image = 0x2000000 % 2 ^ 32 :=
  ⟨(setup_header_as_stored sample_bootargs 1 sample_config_tables
      (map_of [⟨EFI_CONVENTIONAL_MEMORY, 0x100000, 0x100⟩] 0x5000 40) 0x7000
      image_with_ramdisk_fields 0x800 0x2000000 0x1000 zero_machine
      (by decide) (by decide) (by decide) (by decide)).2.1,
    ((setup_header_as_stored sample_bootargs 1 sample_config_tables
      (map_of [⟨EFI_CONVENTIONAL_MEMORY, 0x100000, 0x100⟩] 0x5000 40) 0x7000
      image_with_ramdisk_fields 0x800 0x2000000 0x1000 zero_machine
      (by decide) (by decide) (by decide) (by decide)).2.2.2.2.2.2.1 (by decide)).1⟩

/-- C13. For a kernel image of 32-bit length that is at least as long as its setup
sectors (`(s + 1) * 512 ≤ kernel_len`, `s` = image byte 0x1F1), let `lf` be the load-flags
byte copied into the parameter block header: image byte 0x211, or zero when the encoded
header end (image byte 0x201 plus 0x202) does not reach offset 0x211.  When bit 0 of `lf` is clear `LoadLinux` halts with "Linux kernels
that load at 0x10000 are unsupported!", the descriptor-table region untouched and no step
after the population of the block executed; when bit 0 is set `LoadLinux` does not halt
with that message.  The relocation before the check copies `kernel_len - (s + 1) * 512`
bytes. -/
theorem loadflags_bit0_decides_image_error (BootArgs : MACH_BOOTARGS) (nr_tables : Nat)
    (config_tables : Nat → efi_config_table_t) (rd : Nat → efi_memory_desc_t)
    (bp_addr : Nat) (kernel_ptr : Nat → Nat) (kernel_len initrd_ptr initrd_len : Nat)
    (m : Machine) (hk32 : kernel_len < 2 ^ 32)
    (hlen : (load8 kernel_ptr 0x1F1 + 1) * 512 ≤ kernel_len) :
    ((if 0x211 < load8 kernel_ptr 0x201 + 0x202 then load8 kernel_ptr 0x211 else 0) % 2 = 0 →
      ∃ m1, LoadLinux BootArgs nr_tables config_tables rd bp_addr kernel_ptr kernel_len
          initrd_ptr initrd_len m = .fatal .loads_at_0x10000 m1
        ∧ m1.gdt_region = m.gdt_region
        ∧ m1.trace = m.trace ++ [.relocate, .zero_params, .copy_setup_header, .populate]) ∧
    ((if 0x211 < load8 kernel_ptr 0x201 + 0x202 then load8 kernel_ptr 0x211 else 0) % 2 = 1 →
      ∀ m1, LoadLinux BootArgs nr_tables config_tables rd bp_addr kernel_ptr kernel_len
          initrd_ptr initrd_len m ≠ .fatal .loads_at_0x10000 m1) ∧
    real_kernel_len kernel_ptr kernel_len = kernel_len - (load8 kernel_ptr 0x1F1 + 1) * 512 := by
  have hlf := loadflags_at_check BootArgs kernel_ptr m.boot_params
  refine ⟨?_, ?_, real_kernel_len_eq kernel_ptr kernel_len hk32 hlen⟩
  · intro h0
    unfold LoadLinux
    simp only []
    rw [if_pos (by rw [Nat.and_one_is_mod, hlf]; exact h0)]
    exact ⟨_, rfl, rfl, rfl⟩
  · intro h1 m1 hf
    rcases LoadLinux_fatal_cases _ _ _ _ _ _ _ _ _ _ _ m1 hf with h | h | h
    · have h2 := h.2
      have e : load8 (copy_setup_header kernel_ptr m.boot_params) 0x211
          = load8 (configure_setup_header BootArgs (copy_setup_header kernel_ptr m.boot_params))
              off_loadflags := by
        unfold load8 off_loadflags
        rw [configure_setup_header_frame _ _ _ (by decide) (by decide) (by decide)]
      rw [e, hlf] at h2
      omega
    · cases h
    · cases h

theorem loadflags_bit0_decides_image_error_witness :
    ∃ m1, LoadLinux sample_bootargs 1 sample_config_tables
        (map_of [⟨EFI_CONVENTIONAL_MEMORY, 0x100000, 0x100⟩] 0x5000 40) 0x7000
        image_loads_low 0x800 0 0 zero_machine = .fatal .loads_at_0x10000 m1
      ∧ m1.gdt_region = zero_machine.gdt_region
      ∧ m1.trace = zero_machine.trace
          ++ [.relocate, .zero_params, .copy_setup_header, .populate] :=
  (loadflags_bit0_decides_image_error sample_bootargs 1 sample_config_tables
    (map_of [⟨EFI_CONVENTIONAL_MEMORY, 0x100000, 0x100⟩] 0x5000 40) 0x7000
    image_loads_low 0x800 0 0 zero_machine (by decide) (by decide)).1 (by decide)

/-- C14 (counterexample). The table `full_table`, produced by 128 calls of
`add_memory_region`, holds 128 entries, the last one the reserved page
`[0x2FE000, 0x2FF000)`.  Adding the reserved page at 0x2FF000, of the type of the last
entry and starting exactly at its end, raises the capacity error and leaves the last
entry's size at 0x1000. -/
theorem mergeable_region_at_full_table_halts :
    (feed ⟨zero_table, 0⟩ regions_128).isHalted = false ∧ full_table.e820_nr_map = 128 ∧
    full_table.e820_map 127 = ⟨0x2FE000, 0x1000, E820_RESERVED⟩ ∧
    (0x2FE000 + 0x1000) % 2 ^ 64 = 0x2FF000 ∧
    (add_memory_region full_table 0x2FF000 0x1000 E820_RESERVED).isHalted = true ∧
    ((add_memory_region full_table 0x2FF000 0x1000 E820_RESERVED).state.e820_map 127).size
      = 0x1000 :=
  ⟨full_table_last.1, full_table_last.2.1, full_table_last.2.2, by decide,
    full_table_refuses_merge.1, by rw [full_table_refuses_merge.2]⟩

/-- C14 (amended). At a table that holds 128 entries every call of `add_memory_region`,
for a mergeable region as for any other, raises the capacity error and leaves the table
as it is; the capacity error is raised at no other table; and at a table that holds
between 1 and 127 entries, a region of the type of the last entry that starts exactly at
that entry's end (in 64-bit arithmetic) raises no error, leaves the counter and every
other slot as they are and extends the last entry's size by the region's size
(modulo 2^64). -/
theorem capacity_error_at_full_table :
    (∀ (s : E820State) (start size type : Nat), s.e820_nr_map = 128 →
      add_memory_region s start size type = .halted s) ∧
    (∀ (s : E820State) (start size type : Nat),
      (add_memory_region s start size type).isHalted = true → s.e820_nr_map = 128) ∧
    (∀ (s : E820State) (size : Nat), 0 < s.e820_nr_map → s.e820_nr_map < 128 →
      (add_memory_region s
        (((s.e820_map (s.e820_nr_map - 1)).addr + (s.e820_map (s.e820_nr_map - 1)).size)
          % 2 ^ 64) size (s.e820_map (s.e820_nr_map - 1)).type).isHalted = false ∧
      (add_memory_region s
        (((s.e820_map (s.e820_nr_map - 1)).addr + (s.e820_map (s.e820_nr_map - 1)).size)
          % 2 ^ 64) size (s.e820_map (s.e820_nr_map - 1)).type).state.e820_nr_map
        = s.e820_nr_map ∧
      (add_memory_region s
        (((s.e820_map (s.e820_nr_map - 1)).addr + (s.e820_map (s.e820_nr_map - 1)).size)
          % 2 ^ 64) size (s.e820_map (s.e820_nr_map - 1)).type).state.e820_map
          (s.e820_nr_map - 1)
        = ⟨(s.e820_map (s.e820_nr_map - 1)).addr,
           ((s.e820_map (s.e820_nr_map - 1)).size + size) % 2 ^ 64,
           (s.e820_map (s.e820_nr_map - 1)).type⟩ ∧
      (∀ i, i ≠ s.e820_nr_map - 1 →
        (add_memory_region s
          (((s.e820_map (s.e820_nr_map - 1)).addr + (s.e820_map (s.e820_nr_map - 1)).size)
            % 2 ^ 64) size (s.e820_map (s.e820_nr_map - 1)).type).state.e820_map i
          = s.e820_map i)) := by
  refine ⟨?_, ?_, ?_⟩
  · intro s start size type h
    unfold add_memory_region
    simp only [E820_MAX_ENTRIES_ZEROPAGE]
    rw [if_pos h]
  · intro s start size type h
    unfold add_memory_region at h
    simp only [E820_MAX_ENTRIES_ZEROPAGE] at h
    split_ifs at h with h1 h2
    · exact h1
    · cases h
    · cases h
  · intro s size h0 h128
    unfold add_memory_region
    simp only [E820_MAX_ENTRIES_ZEROPAGE]
    rw [if_neg (by omega), if_pos (by simp [h0])]
    refine ⟨rfl, rfl, ?_, ?_⟩
    · simp only [Run.state]
      rw [Function.update_same]
    · intro i hi
      simp only [Run.state]
      rw [Function.update_noteq hi]

theorem capacity_error_at_full_table_witness :
    (add_memory_region ⟨Function.update zero_table 0 ⟨0x1000, 0x1000, E820_RESERVED⟩, 1⟩
      0x2000 0x3000 E820_RESERVED).isHalted = false ∧
    (add_memory_region ⟨Function.update zero_table 0 ⟨0x1000, 0x1000, E820_RESERVED⟩, 1⟩
      0x2000 0x3000 E820_RESERVED).state.e820_nr_map = 1 ∧
    (add_memory_region ⟨Function.update zero_table 0 ⟨0x1000, 0x1000, E820_RESERVED⟩, 1⟩
      0x2000 0x3000 E820_RESERVED).state.e820_map 0 = ⟨0x1000, 0x4000, E820_RESERVED⟩ :=
  match capacity_error_at_full_table.2.2
      ⟨Function.update zero_table 0 ⟨0x1000, 0x1000, E820_RESERVED⟩, 1⟩ 0x3000
      (by decide) (by decide) with
  | ⟨h1, h2, h3, _⟩ => ⟨h1, h2, h3⟩

/-- C15. For every firmware memory map whose regions do not wrap around 2^64, every
usable-RAM entry (of any size) of the table `fill_e820map` builds, on a completed or a
halted run, ends at or below 0xA0000 or starts at or above 0x100000: no usable-RAM entry
contains an address of the hole `[0xA0000, 0x100000)`. -/
theorem ram_entries_avoid_hole (rd : Nat → efi_memory_desc_t) (base size stride : Nat)
    (tbl : Nat → boot_e820_entry)
    (hov : ∀ i, i < size / stride →
      (rd (base + i * stride)).phys_addr + (rd (base + i * stride)).num_pages * 4096 < 2 ^ 64) :
    ∀ k, k < (fill_e820map rd base size stride tbl).state.e820_nr_map →
      ((fill_e820map rd base size stride tbl).state.e820_map k).type = E820_RAM →
      ((fill_e820map rd base size stride tbl).state.e820_map k).addr
          + ((fill_e820map rd base size stride tbl).state.e820_map k).size ≤ 0xA0000
        ∨ 0x100000 ≤ ((fill_e820map rd base size stride tbl).state.e820_map k).addr := by
  have h : AvoidsHole (fill_e820map rd base size stride tbl).state := by
    rw [fill_e820map_eq_feed]
    apply feed_preserves AvoidsHole RegionAvoidsHole
    · intro s r hr hs
      exact add_memory_region_avoids_hole s r hr hs
    · intro r hr
      rw [List.mem_flatMap] at hr
      obtain ⟨md, hmd, hr1⟩ := hr
      obtain ⟨i, hi, hmd1⟩ := visited_mem rd stride _ _ md hmd
      have := hov i hi
      rw [← hmd1] at this
      exact emitted_regions_avoid_hole md this r hr1
    · exact ⟨Nat.zero_le _, fun i hi => absurd hi (Nat.not_lt_zero _)⟩
  intro k hk ht
  exact (h.2 k hk).2 ht

theorem ram_entries_avoid_hole_witness :
    ((fill_e820map (map_of map_low_then_reserved 0x1000 40) 0x1000 80 40
        zero_table).state.e820_map 1).addr
      + ((fill_e820map (map_of map_low_then_reserved 0x1000 40) 0x1000 80 40
        zero_table).state.e820_map 1).size ≤ 0xA0000
    ∨ 0x100000 ≤ ((fill_e820map (map_of map_low_then_reserved 0x1000 40) 0x1000 80 40
        zero_table).state.e820_map 1).addr :=
  ram_entries_avoid_hole (map_of map_low_then_reserved 0x1000 40) 0x1000 80 40 zero_table
    (by decide) 1 (by decide) (by decide)

/-- C16 (counterexample). The image `image_long_header` encodes the header end 0x301.
After the header copy into the zeroed block the bytes at offsets 0x2A0
(`edd_mbr_sig_buffer`), 0x2D0 (`e820_table`) and 0x300, all at or above 0x290, are the
image's 0xAB, 0xCD and 0xEF; the build reaches the handoff with 0xAB still at 0x2A0. -/
theorem header_copy_past_header_area :
    load8 image_long_header 0x201 + 0x11 = 0x110 ∧
    copy_setup_header image_long_header zero_machine.boot_params 0x2A0 = 0xAB ∧
    copy_setup_header image_long_header zero_machine.boot_params 0x2D0 = 0xCD ∧
    copy_setup_header image_long_header zero_machine.boot_params 0x300 = 0xEF ∧
    (WrapperInit sample_bootargs 1 sample_config_tables
      (map_of [⟨EFI_CONVENTIONAL_MEMORY, 0x100000, 0x100⟩] 0x5000 40) 0x7000
      image_long_header 0x800 0 0 zero_machine).isFatal = false ∧
    (WrapperInit sample_bootargs 1 sample_config_tables
      (map_of [⟨EFI_CONVENTIONAL_MEMORY, 0x100000, 0x100⟩] 0x5000 40) 0x7000
      image_long_header 0x800 0 0 zero_machine).machine.boot_params 0x2A0 = 0xAB := by
  refine ⟨by decide, by decide, by decide, by decide, by decide, by decide⟩

/-- C16 (amended). For every kernel image, the setup-header copy (length = image byte at
0x201 plus 0x11, written at block offset 0x1F1) modifies only bytes of the freshly zeroed
parameter block inside `[0x1F1, E)`, where `E` = image byte 0x201 plus 0x202 is at most
0x301: every block byte below 0x1F1 and every block byte from `E` on is zero after the
copy, and each byte inside `[0x1F1, E)` is the image's byte at the same offset.  When
image byte 0x201 is at most 0x8E, so that `E ≤ 0x290`, every block byte at offset 0x290
or above is zero after the copy. -/
theorem header_copy_frame (kernel_ptr bp : Nat → Nat) :
    load8 kernel_ptr 0x201 + 0x202 - off_hdr = load8 kernel_ptr 0x201 + 0x11 ∧
    load8 kernel_ptr 0x201 + 0x202 ≤ 0x301 ∧
    (∀ j, j < 0x1f1 → copy_setup_header kernel_ptr bp j = 0) ∧
    (∀ j, 0x1f1 ≤ j → j < load8 kernel_ptr 0x201 + 0x202 →
      copy_setup_header kernel_ptr bp j = load8 kernel_ptr j) ∧
    (∀ j, load8 kernel_ptr 0x201 + 0x202 ≤ j → j < sizeof_boot_params →
      copy_setup_header kernel_ptr bp j = 0) ∧
    (load8 kernel_ptr 0x201 ≤ 0x8E → ∀ j, 0x290 ≤ j → j < sizeof_boot_params →
      copy_setup_header kernel_ptr bp j = 0) := by
  have hb : load8 kernel_ptr 0x201 < 256 := Nat.mod_lt _ (by decide)
  unfold sizeof_boot_params off_hdr
  refine ⟨by omega, by omega, ?_, ?_, ?_, ?_⟩
  · intro j hj
    rw [copy_setup_header_apply _ _ _ (by omega), if_neg (by omega)]
  · intro j h1 h2
    rw [copy_setup_header_apply _ _ _ (by omega), if_pos ⟨h1, h2⟩]
  · intro j h1 h2
    rw [copy_setup_header_apply _ _ _ h2, if_neg (by omega)]
  · intro h j h1 h2
    rw [copy_setup_header_apply _ _ _ h2, if_neg (by omega)]

theorem header_copy_frame_witness :
    copy_setup_header image_plain zero_machine.boot_params 0x290 = 0 :=
  (header_copy_frame image_plain zero_machine.boot_params).2.2.2.2.2 (by decide) 0x290
    (by decide) (by decide)

end LinuxLoader
